import Mathlib

/-!
# Load tester: aggregation, dispatch and parameter validation

A verification development for the Go load tester
(`internal/loadtester/loadtester.go`, `cmd/main.go`).

* Go `int` and `time.Duration` values are integers; the running sum of
  durations is reduced to the int64 range after every addition (`wrap64`).
  The request counters are incremented once per received result and are kept
  unreduced.
* The `map[int]int` of status codes is an association list with unique keys.
* `Run` is a transition system over the goroutines it starts: the launching
  loop, one task per request, the goroutine closing the result channel, and
  the collecting loop.
-/

namespace LoadTester

/-! ## Data model (`loadtester.go`, lines 11-35) -/

/-- Reduction of an integer to the two-complement int64 range. -/
def wrap64 (x : Int) : Int := (x + 2 ^ 63) % 2 ^ 64 - 2 ^ 63

/-- The constant `time.Hour`, in nanoseconds. -/
def timeHour : Int := 3600000000000

/-- Parameters of a load test (`type Config`). -/
structure Config where
  URL : String
  Requests : Int
  Concurrency : Int
  deriving DecidableEq, Repr

/-- Outcome of one request (`type Result`); `Error = none` is the nil error. -/
structure Result where
  StatusCode : Int
  Duration : Int
  Error : Option String
  deriving DecidableEq, Repr

/-- A Go `map[int]int`: association list from status code to count. -/
abbrev StatusMap := List (Int × Int)

/-- The entry stored under key `k`, if the key is present. -/
def StatusMap.find : StatusMap → Int → Option Int
  | [], _ => none
  | (k', v) :: m, k => if k' = k then some v else StatusMap.find m k

/-- Go map read `m[k]`: the stored value, or zero for an absent key. -/
def StatusMap.get (m : StatusMap) (k : Int) : Int :=
  match StatusMap.find m k with
  | some v => v
  | none => 0

/-- Go statement `m[k]++`: read with zero default, add one, store. -/
def StatusMap.incr : StatusMap → Int → StatusMap
  | [], k => [(k, 0 + 1)]
  | (k', v) :: m, k =>
    if k' = k then (k', v + 1) :: m else (k', v) :: StatusMap.incr m k

/-- Sum of all the values stored in the map. -/
def StatusMap.sumValues (m : StatusMap) : Int := (m.map Prod.snd).sum

/-- The final report of a test (`type Report`). -/
structure Report where
  TotalTime : Int
  TotalRequests : Int
  SuccessfulReqs : Int
  StatusCodeCounts : StatusMap
  ErrorCount : Int
  AvgResponseTime : Int
  MinResponseTime : Int
  MaxResponseTime : Int
  deriving DecidableEq, Repr

/-! ## `collectResults` (`loadtester.go`, lines 119-162) -/

/-- Local state of `collectResults`: the report under construction and the
variable `totalDuration`. -/
structure CollectState where
  report : Report
  totalDuration : Int
  deriving DecidableEq, Repr

/-- State before the loop (lines 120-125): empty map, minimum preset to
`time.Hour`, every other field zero. -/
def collectInit : CollectState :=
  { report :=
      { TotalTime := 0, TotalRequests := 0, SuccessfulReqs := 0,
        StatusCodeCounts := [], ErrorCount := 0, AvgResponseTime := 0,
        MinResponseTime := timeHour, MaxResponseTime := 0 },
    totalDuration := 0 }

/-- One iteration of the loop `for result := range results` (lines 127-147). -/
def collectStep (st : CollectState) (result : Result) : CollectState :=
  let report := { st.report with TotalRequests := st.report.TotalRequests + 1 }
  let report :=
    if result.Error ≠ none then
      { report with ErrorCount := report.ErrorCount + 1 }
    else
      let report :=
        { report with
          StatusCodeCounts := StatusMap.incr report.StatusCodeCounts result.StatusCode }
      if result.StatusCode = 200 then
        { report with SuccessfulReqs := report.SuccessfulReqs + 1 }
      else report
  let totalDuration := wrap64 (st.totalDuration + result.Duration)
  let report :=
    if result.Duration < report.MinResponseTime then
      { report with MinResponseTime := result.Duration }
    else report
  let report :=
    if result.Duration > report.MaxResponseTime then
      { report with MaxResponseTime := result.Duration }
    else report
  { report := report, totalDuration := totalDuration }

/-- Code after the loop (lines 149-161); `elapsed` is the value of
`time.Since(startTime)`. Go integer division truncates toward zero. -/
def collectFinish (st : CollectState) (elapsed : Int) : Report :=
  let report := { st.report with TotalTime := elapsed }
  let report :=
    if report.TotalRequests > 0 then
      { report with AvgResponseTime := Int.tdiv st.totalDuration report.TotalRequests }
    else report
  let report :=
    if report.MinResponseTime = timeHour then
      { report with MinResponseTime := 0 }
    else report
  report

/-- The loop of `collectResults` over the results received so far. -/
def collectLoop (results : List Result) : CollectState :=
  results.foldl collectStep collectInit

/-- Function `collectResults` on the finite stream of results delivered by
the channel before it is closed. -/
def collectResults (results : List Result) (elapsed : Int) : Report :=
  collectFinish (collectLoop results) elapsed

/-! ## Reference notions used in the statements -/

/-- The test `result.Error != nil`. -/
def Result.isError (r : Result) : Bool := r.Error.isSome

/-- A result without error whose status code is `c`. -/
def Result.hasCode (c : Int) (r : Result) : Bool := r.Error.isNone && decide (r.StatusCode = c)

/-- Sum of the durations of a list of results, as a mathematical integer. -/
def durationSum (rs : List Result) : Int := (rs.map Result.Duration).sum

/-- The equation between the status counts, the error count and the total
number of requests of a report. -/
def Report.countsAddUp (rep : Report) : Prop :=
  StatusMap.sumValues rep.StatusCodeCounts + rep.ErrorCount = rep.TotalRequests

instance (rep : Report) : Decidable rep.countsAddUp := by
  unfold Report.countsAddUp
  infer_instance

/-- The value `m` is the smallest duration among the results `rs`. -/
def IsSmallestDuration (rs : List Result) (m : Int) : Prop :=
  (∃ r ∈ rs, r.Duration = m) ∧ ∀ r ∈ rs, m ≤ r.Duration

/-- Responses without error whose status codes alternate, starting with `a`
and continuing with `b`. -/
def alternates (a b : Int) : List Result → Bool
  | [] => true
  | r :: rs => r.Error.isNone && decide (r.StatusCode = a) && alternates b a rs

/-! ## `Run` (`loadtester.go`, lines 54-89) as a transition system

Every goroutine started by `Run` has a control point; a step is one
communication or call of one goroutine. A buffered channel is its buffer
and its capacity, a channel of capacity zero lets a send proceed only
together with a receive. -/

/-- Control point of one task goroutine (lines 68-78). -/
inductive TaskPc
  /-- Started, before the send `semaphore <- struct{}{}` of line 72. -/
  | waiting
  /-- Slot acquired, inside `lt.makeRequest(ctx)` (line 76). -/
  | running
  /-- Function `makeRequest` returned `r`, before `results <- result` (line 77). -/
  | hasResult (r : Result)
  /-- Result sent, the deferred receive `<-semaphore` of line 73 is next. -/
  | sent
  /-- Slot given back, the deferred `wg.Done()` of line 69 is next. -/
  | released
  /-- Goroutine finished. -/
  | done
  deriving DecidableEq, Repr

/-- Control point of the goroutine of lines 82-85. -/
inductive CloserPc
  /-- The `go` statement of line 82 was not executed yet. -/
  | notStarted
  /-- Blocked in `wg.Wait()` (line 83). -/
  | waiting
  /-- Call `wg.Wait()` returned, `close(results)` (line 84) is next. -/
  | closing
  /-- Goroutine finished. -/
  | done
  deriving DecidableEq, Repr

/-- Control point of the goroutine that called `Run`. -/
inductive MainPc
  /-- In the loop of lines 66-79. -/
  | launching
  /-- In the loop of `collectResults` (line 127). -/
  | collecting
  /-- Method `Run` returned the report. -/
  | returned (report : Report)
  deriving DecidableEq, Repr

/-- State of an execution of `Run`. -/
structure RunState where
  /-- Value of `lt.config.Requests`, the capacity of channel `results`. -/
  requests : Nat
  /-- Value of `lt.config.Concurrency`, the capacity of channel `semaphore`. -/
  concurrency : Nat
  /-- Task goroutines launched so far; the length is the loop variable `i`. -/
  tasks : List TaskPc
  /-- Number of elements buffered in channel `semaphore`. -/
  semaphore : Nat
  /-- Elements buffered in channel `results`, oldest first. -/
  results : List Result
  /-- Whether channel `results` was closed. -/
  closed : Bool
  /-- Counter of the wait group `wg`. -/
  wg : Int
  closer : CloserPc
  main : MainPc
  /-- Local state of `collectResults`. -/
  collect : CollectState
  /-- Whether a goroutine panicked, which ends the program. -/
  panicked : Bool
  deriving DecidableEq, Repr

/-- One step of one goroutine. -/
inductive Action
  /-- Main, lines 66-68: loop test true, `wg.Add(1)`, `go func() ...`. -/
  | launch
  /-- Main, lines 66, 82, 88, 120-125: loop test false, the closing goroutine
  is started, `collectResults` is entered. -/
  | startCollect
  /-- Task `i`, line 72: send on the buffered semaphore. -/
  | acquire (i : Nat)
  /-- Semaphore of capacity zero: the send of task `i` (line 72) meets the
  deferred receive of task `j` (line 73). -/
  | handOver (i j : Nat)
  /-- Task `i`, line 76: `makeRequest` returns `r`. -/
  | makeRequest (i : Nat) (r : Result)
  /-- Task `i`, line 77: `results <- result`. -/
  | send (i : Nat)
  /-- Task `i`, line 73: deferred receive from the buffered semaphore. -/
  | release (i : Nat)
  /-- Task `i`, line 69: deferred `wg.Done()`. -/
  | wgDone (i : Nat)
  /-- Closing goroutine, line 83: `wg.Wait()` returns. -/
  | waitReturn
  /-- Closing goroutine, line 84: `close(results)`. -/
  | closeResults
  /-- Main, line 127: the range loop receives one result and runs its body. -/
  | receive
  /-- Main, lines 127 and 149-161: the range loop ends on the closed, drained
  channel; `elapsed` is the value of `time.Since(startTime)`. -/
  | finish (elapsed : Int)
  deriving DecidableEq, Repr

/-- State of `Run` after lines 55-63. The two `make` calls panic on a
negative capacity, and `make(chan Result, n)` panics when the `n` elements do
not fit in the largest allocation of the platform; `maxCap` is the largest
capacity it accepts (below 2^43 on linux/amd64, where a `Result` takes 32
bytes). The elements of `semaphore` have size zero, so only its sign matters.
After a panic there is no state. -/
def Run.init (maxCap : Nat) (config : Config) : Option RunState :=
  if config.Requests < 0 ∨ (maxCap : Int) < config.Requests ∨ config.Concurrency < 0 then none
  else
    some
      { requests := config.Requests.toNat, concurrency := config.Concurrency.toNat,
        tasks := [], semaphore := 0, results := [], closed := false, wg := 0,
        closer := .notStarted, main := .launching, collect := collectInit,
        panicked := false }

/-- The step relation: `Run.step s a = some t` when action `a` is enabled in
state `s` and leads to `t`; `none` when the goroutine of `a` is blocked or is
not at the control point of `a`. -/
def Run.step (s : RunState) (a : Action) : Option RunState :=
  if s.panicked then none
  else
    match a with
    | .launch =>
      if s.main = .launching ∧ s.tasks.length < s.requests then
        some { s with tasks := s.tasks ++ [TaskPc.waiting], wg := s.wg + 1 }
      else none
    | .startCollect =>
      if s.main = .launching ∧ ¬ s.tasks.length < s.requests then
        some { s with closer := .waiting, main := .collecting, collect := collectInit }
      else none
    | .acquire i =>
      if s.tasks[i]? = some TaskPc.waiting ∧ s.semaphore < s.concurrency then
        some { s with tasks := s.tasks.set i .running, semaphore := s.semaphore + 1 }
      else none
    | .handOver i j =>
      if s.concurrency = 0 ∧ s.tasks[i]? = some TaskPc.waiting ∧
          s.tasks[j]? = some TaskPc.sent then
        some { s with tasks := (s.tasks.set i .running).set j .released }
      else none
    | .makeRequest i r =>
      if s.tasks[i]? = some TaskPc.running then
        some { s with tasks := s.tasks.set i (.hasResult r) }
      else none
    | .send i =>
      match s.tasks[i]? with
      | some (.hasResult r) =>
        if s.closed then some { s with panicked := true }
        else if s.results.length < s.requests then
          some { s with tasks := s.tasks.set i .sent, results := s.results ++ [r] }
        else none
      | _ => none
    | .release i =>
      if s.tasks[i]? = some TaskPc.sent ∧ 0 < s.semaphore then
        some { s with tasks := s.tasks.set i .released, semaphore := s.semaphore - 1 }
      else none
    | .wgDone i =>
      if s.tasks[i]? = some TaskPc.released then
        if s.wg - 1 < 0 then some { s with panicked := true }
        else some { s with tasks := s.tasks.set i .done, wg := s.wg - 1 }
      else none
    | .waitReturn =>
      if s.closer = .waiting ∧ s.wg = 0 then some { s with closer := .closing }
      else none
    | .closeResults =>
      if s.closer = .closing then
        if s.closed then some { s with panicked := true }
        else some { s with closed := true, closer := .done }
      else none
    | .receive =>
      if s.main = .collecting then
        match s.results with
        | r :: rest => some { s with results := rest, collect := collectStep s.collect r }
        | [] => none
      else none
    | .finish elapsed =>
      if s.main = .collecting ∧ s.results = [] ∧ s.closed = true then
        some { s with main := .returned (collectFinish s.collect elapsed) }
      else none

/-- Execution of a schedule, a finite sequence of steps; `none` when one of
the steps is not enabled. -/
def Run.exec (s : RunState) : List Action → Option RunState
  | [] => some s
  | a :: rest =>
    match Run.step s a with
    | some t => Run.exec t rest
    | none => none

/-- The report returned by `Run` in a state, if `Run` returned. -/
def RunState.report (s : RunState) : Option Report :=
  match s.main with
  | .returned rep => some rep
  | _ => none

/-- A task that is inside `makeRequest`. -/
def TaskPc.inRequest : TaskPc → Bool
  | .running => true
  | _ => false

/-- A task that acquired a semaphore slot and did not give it back yet. -/
def TaskPc.holding : TaskPc → Bool
  | .running => true
  | .hasResult _ => true
  | .sent => true
  | _ => false

/-- A task that put its result into channel `results`. -/
def TaskPc.delivered : TaskPc → Bool
  | .sent => true
  | .released => true
  | .done => true
  | _ => false

/-- A task whose goroutine did not finish yet. -/
def TaskPc.notDone : TaskPc → Bool
  | .done => false
  | _ => true

/-- Number of tasks inside `makeRequest`. -/
def RunState.inFlight (s : RunState) : Nat := s.tasks.countP TaskPc.inRequest

/-- Number of tasks holding a semaphore slot. -/
def RunState.holders (s : RunState) : Nat := s.tasks.countP TaskPc.holding

/-- Invariant of the executions of `Run`. -/
structure Run.Inv (s : RunState) : Prop where
  launched : s.tasks.length ≤ s.requests
  wg_eq : s.wg = (s.tasks.countP TaskPc.notDone : Nat)
  sem_eq : s.semaphore = s.tasks.countP TaskPc.holding
  sem_le : s.semaphore ≤ s.concurrency
  delivered_eq : (s.results.length : Int) + s.collect.report.TotalRequests =
    (s.tasks.countP TaskPc.delivered : Nat)
  launching : s.main = .launching →
    s.closer = .notStarted ∧ s.collect.report.TotalRequests = 0
  collecting : s.main ≠ .launching → s.tasks.length = s.requests ∧ s.closer ≠ .notStarted
  closer_wg : s.closer = .closing ∨ s.closer = .done → s.wg = 0
  closed_iff : s.closed = true ↔ s.closer = .done
  returned : ∀ rep, s.main = .returned rep →
    rep.TotalRequests = s.requests ∧ s.closer = .done
  no_panic : s.panicked = false
  total_nonneg : 0 ≤ s.collect.report.TotalRequests

/-- Weight of a task control point: twice the number of steps left. -/
def TaskPc.rank : TaskPc → Nat
  | .waiting => 10
  | .running => 8
  | .hasResult _ => 6
  | .sent => 4
  | .released => 2
  | .done => 0

/-- Number of steps left to the closing goroutine. -/
def CloserPc.rank : CloserPc → Nat
  | .notStarted => 3
  | .waiting => 2
  | .closing => 1
  | .done => 0

/-- Weight of the control point of the main goroutine. -/
def MainPc.rank : MainPc → Nat
  | .launching => 4
  | .collecting => 1
  | .returned _ => 0

/-- Bound on the number of steps that remain possible from a state. -/
def RunState.measure (s : RunState) : Nat :=
  11 * (s.requests - s.tasks.length) + (s.tasks.map TaskPc.rank).sum + s.closer.rank +
    s.main.rank + s.results.length + (if s.panicked then 0 else 1)

/-! ## A concrete execution, used to instantiate the statements -/

/-- A capacity limit of the channel of results: one below 2^43. -/
def Run.demoCap : Nat := 8796093022207

/-- A configuration with two requests and concurrency one. -/
def Run.demoConfig : Config := { URL := "http://localhost", Requests := 2, Concurrency := 1 }

/-- The initial state of `Run` on `Run.demoConfig`. -/
def Run.demoInit : RunState :=
  { requests := 2, concurrency := 1, tasks := [], semaphore := 0, results := [],
    closed := false, wg := 0, closer := .notStarted, main := .launching,
    collect := collectInit, panicked := false }

/-- The start of an execution: both tasks are launched, the second one
acquires the only slot. -/
def Run.demoStart : List Action := [.launch, .launch, .acquire 1]

/-- The state after `Run.demoStart`. -/
def Run.demoMiddle : RunState :=
  { Run.demoInit with tasks := [.waiting, .running], semaphore := 1, wg := 2 }

/-- A complete execution: the second task answers 200 after 5 ns, the first
one fails after 9 ns, and `Run` returns after 77 ns. -/
def Run.demoSchedule : List Action :=
  [.launch, .launch, .acquire 1, .startCollect, .makeRequest 1 ⟨200, 5, none⟩, .send 1,
   .receive, .release 1, .acquire 0, .wgDone 1, .makeRequest 0 ⟨0, 9, some "timeout"⟩,
   .send 0, .release 0, .wgDone 0, .waitReturn, .closeResults, .receive, .finish 77]

/-- The report returned at the end of `Run.demoSchedule`. -/
def Run.demoReport : Report :=
  { TotalTime := 77, TotalRequests := 2, SuccessfulReqs := 1, StatusCodeCounts := [(200, 1)],
    ErrorCount := 1, AvgResponseTime := 7, MinResponseTime := 5, MaxResponseTime := 9 }

/-- The state after `Run.demoSchedule`. -/
def Run.demoFinal : RunState :=
  { Run.demoInit with
    tasks := [.done, .done], closed := true, closer := .done,
    main := .returned Run.demoReport,
    collect :=
      { report := { Run.demoReport with TotalTime := 0, AvgResponseTime := 0 },
        totalDuration := 14 } }

/-- A configuration with one request and concurrency zero. -/
def Run.stuckConfig : Config := { URL := "http://localhost", Requests := 1, Concurrency := 0 }

/-- The initial state of `Run` on `Run.stuckConfig`. -/
def Run.stuckInit : RunState :=
  { requests := 1, concurrency := 0, tasks := [], semaphore := 0, results := [],
    closed := false, wg := 0, closer := .notStarted, main := .launching,
    collect := collectInit, panicked := false }

/-- The state of `Run` on `Run.stuckConfig` after the task is launched. -/
def Run.stuckMid : RunState :=
  { Run.stuckInit with tasks := [.waiting], wg := 1 }

/-- The state of `Run` on `Run.stuckConfig` after the task is launched and
`collectResults` is entered. -/
def Run.stuckState : RunState :=
  { requests := 1, concurrency := 0, tasks := [.waiting], semaphore := 0, results := [],
    closed := false, wg := 1, closer := .waiting, main := .collecting,
    collect := collectInit, panicked := false }

/-- A configuration asking for 2^43 requests. -/
def Run.hugeConfig : Config :=
  { URL := "http://localhost", Requests := 8796093022208, Concurrency := 1 }

/-! ## `validateParams` and `runLoadTest` (`cmd/main.go`, lines 46-112) -/

/-- The package variables set from the command line (lines 15-19). -/
structure Flags where
  targetURL : String
  requests : Int
  concurrency : Int
  deriving DecidableEq, Repr

/-- Effect of one call of `validateParams`: the returned error (`none` is
nil), the package variables afterwards and the text printed. -/
structure Validation where
  err : Option String
  flags : Flags
  printed : List String
  deriving DecidableEq, Repr

/-- Function `validateParams` (lines 83-112). The library function
`url.ParseRequestURI` is the parameter `parseRequestURI`, which gives the
error text for a rejected address and `none` for an accepted one. -/
def validateParams (parseRequestURI : String → Option String) (g : Flags) : Validation :=
  if g.targetURL = "" then
    { err := some "URL é obrigatória", flags := g, printed := [] }
  else
    match parseRequestURI g.targetURL with
    | some e => { err := some ("URL inválida: " ++ e), flags := g, printed := [] }
    | none =>
      if g.requests ≤ 0 then
        { err := some "número de requests deve ser maior que 0", flags := g, printed := [] }
      else if g.concurrency ≤ 0 then
        { err := some "concorrência deve ser maior que 0", flags := g, printed := [] }
      else if g.concurrency > g.requests then
        { err := none,
          flags := { g with concurrency := g.requests },
          printed := ["Aviso: Concorrência ajustada para " ++ toString g.requests ++
            " (número total de requests)\n"] }
      else { err := none, flags := g, printed := [] }

/-- What `runLoadTest` does with the load tester: it returns the validation
error without building one, or it builds the configuration of lines 56-60
and calls `tester.Run` on it (line 73). -/
inductive LoadTest
  | rejected (err : String)
  | ran (config : Config)
  deriving DecidableEq, Repr

/-- Function `runLoadTest` (lines 46-81) up to the call of `Run`. -/
def runLoadTest (parseRequestURI : String → Option String) (g : Flags) : LoadTest :=
  match validateParams parseRequestURI g with
  | { err := some e, .. } => .rejected e
  | { err := none, flags := g', .. } =>
    .ran { URL := g'.targetURL, Requests := g'.requests, Concurrency := g'.concurrency }

/-! ## Lemmas on the map operations -/

theorem StatusMap.find_incr (m : StatusMap) (k c : Int) :
    StatusMap.find (StatusMap.incr m k) c =
      if k = c then some (StatusMap.get m k + 1) else StatusMap.find m c := by
  induction m with
  | nil =>
    by_cases h : k = c <;> simp [StatusMap.incr, StatusMap.find, StatusMap.get, h]
  | cons p m ih =>
    obtain ⟨k', v⟩ := p
    by_cases h1 : k' = k
    · subst h1
      by_cases h2 : k' = c <;> simp [StatusMap.incr, StatusMap.find, StatusMap.get, h2]
    · by_cases h2 : k = c
      · subst h2
        have h3 : StatusMap.get ((k', v) :: m) k = StatusMap.get m k := by
          simp [StatusMap.get, StatusMap.find, h1]
        simp [StatusMap.incr, StatusMap.find, h1, ih, h3]
      · by_cases h3 : k' = c
        · subst h3
          simp [StatusMap.incr, StatusMap.find, h1, h2]
        · simp [StatusMap.incr, StatusMap.find, h1, h2, h3, ih]

theorem StatusMap.get_incr (m : StatusMap) (k c : Int) :
    StatusMap.get (StatusMap.incr m k) c =
      if k = c then StatusMap.get m c + 1 else StatusMap.get m c := by
  unfold StatusMap.get
  rw [StatusMap.find_incr]
  by_cases h : k = c
  · subst h
    simp [StatusMap.get]
  · simp [h]

theorem StatusMap.sumValues_incr (m : StatusMap) (k : Int) :
    StatusMap.sumValues (StatusMap.incr m k) = StatusMap.sumValues m + 1 := by
  induction m with
  | nil => simp [StatusMap.incr, StatusMap.sumValues]
  | cons p m ih =>
    obtain ⟨k', v⟩ := p
    by_cases h1 : k' = k
    · simp [StatusMap.incr, StatusMap.sumValues, h1]
      omega
    · simp only [StatusMap.sumValues] at ih
      simp [StatusMap.incr, StatusMap.sumValues, h1, ih]
      omega

/-! ## Lemmas on one loop iteration -/

theorem collectStep_TotalRequests (st : CollectState) (r : Result) :
    (collectStep st r).report.TotalRequests = st.report.TotalRequests + 1 := by
  unfold collectStep
  simp only []
  split_ifs <;> rfl

theorem collectStep_ErrorCount (st : CollectState) (r : Result) :
    (collectStep st r).report.ErrorCount =
      st.report.ErrorCount + (if r.isError then 1 else 0) := by
  unfold collectStep Result.isError
  cases hE : r.Error <;> simp only [] <;> split_ifs <;> simp_all

theorem collectStep_SuccessfulReqs (st : CollectState) (r : Result) :
    (collectStep st r).report.SuccessfulReqs =
      st.report.SuccessfulReqs + (if r.hasCode 200 then 1 else 0) := by
  unfold collectStep Result.hasCode
  cases hE : r.Error <;> simp only [] <;> split_ifs <;> simp_all

theorem collectStep_StatusCodeCounts (st : CollectState) (r : Result) :
    (collectStep st r).report.StatusCodeCounts =
      if r.isError then st.report.StatusCodeCounts
      else StatusMap.incr st.report.StatusCodeCounts r.StatusCode := by
  unfold collectStep Result.isError
  cases hE : r.Error <;> simp only [] <;> split_ifs <;> simp_all

theorem collectStep_MinResponseTime (st : CollectState) (r : Result) :
    (collectStep st r).report.MinResponseTime = min st.report.MinResponseTime r.Duration := by
  unfold collectStep
  simp only []
  split_ifs <;> simp_all <;> omega

theorem collectStep_MaxResponseTime (st : CollectState) (r : Result) :
    (collectStep st r).report.MaxResponseTime = max st.report.MaxResponseTime r.Duration := by
  unfold collectStep
  simp only []
  split_ifs <;> simp_all <;> omega

theorem collectStep_totalDuration (st : CollectState) (r : Result) :
    (collectStep st r).totalDuration = wrap64 (st.totalDuration + r.Duration) := by
  unfold collectStep
  rfl


/-! ## Lemmas on the whole loop, from an arbitrary loop state -/

theorem wrap64_add_wrap64 (a b : Int) : wrap64 (wrap64 a + b) = wrap64 (a + b) := by
  unfold wrap64
  omega

theorem wrap64_of_range (a : Int) (h0 : -(2 ^ 63) ≤ a) (h1 : a < 2 ^ 63) : wrap64 a = a := by
  unfold wrap64
  omega

theorem foldl_TotalRequests (rs : List Result) (st : CollectState) :
    (rs.foldl collectStep st).report.TotalRequests = st.report.TotalRequests + rs.length := by
  induction rs generalizing st with
  | nil => simp
  | cons r rs ih =>
    simp only [List.foldl_cons, ih, collectStep_TotalRequests, List.length_cons]
    push_cast
    ring

theorem foldl_ErrorCount (rs : List Result) (st : CollectState) :
    (rs.foldl collectStep st).report.ErrorCount =
      st.report.ErrorCount + rs.countP Result.isError := by
  induction rs generalizing st with
  | nil => simp
  | cons r rs ih =>
    simp only [List.foldl_cons, ih, collectStep_ErrorCount, List.countP_cons]
    split_ifs <;> push_cast <;> ring

theorem foldl_SuccessfulReqs (rs : List Result) (st : CollectState) :
    (rs.foldl collectStep st).report.SuccessfulReqs =
      st.report.SuccessfulReqs + rs.countP (Result.hasCode 200) := by
  induction rs generalizing st with
  | nil => simp
  | cons r rs ih =>
    simp only [List.foldl_cons, ih, collectStep_SuccessfulReqs, List.countP_cons]
    split_ifs <;> push_cast <;> ring

theorem hasCode_isError (c : Int) (r : Result) (h : r.hasCode c = true) : r.isError = false := by
  unfold Result.hasCode at h
  unfold Result.isError
  cases hE : r.Error <;> simp_all

theorem hasCode_iff (c : Int) (r : Result) :
    r.hasCode c = true ↔ r.isError = false ∧ r.StatusCode = c := by
  unfold Result.hasCode Result.isError
  cases hE : r.Error <;> simp

theorem foldl_get (rs : List Result) (st : CollectState) (c : Int) :
    StatusMap.get (rs.foldl collectStep st).report.StatusCodeCounts c =
      StatusMap.get st.report.StatusCodeCounts c + rs.countP (Result.hasCode c) := by
  induction rs generalizing st with
  | nil => simp
  | cons r rs ih =>
    simp only [List.foldl_cons, ih, collectStep_StatusCodeCounts, List.countP_cons]
    by_cases hE : r.isError = true
    · have hc : r.hasCode c = false := by
        cases h : r.hasCode c
        · rfl
        · rw [hasCode_isError c r h] at hE
          exact absurd hE (by decide)
      simp [hE, hc]
    · have hE' : r.isError = false := by simpa using hE
      by_cases hk : r.StatusCode = c
      · have hc : r.hasCode c = true := (hasCode_iff c r).2 ⟨hE', hk⟩
        simp [hE', hc, StatusMap.get_incr, hk]
        ring
      · have hc : r.hasCode c = false := by
          cases h : r.hasCode c
          · rfl
          · exact absurd ((hasCode_iff c r).1 h).2 hk
        simp [hE', hc, StatusMap.get_incr, hk]

theorem foldl_find (rs : List Result) (st : CollectState) (c : Int) :
    StatusMap.find (rs.foldl collectStep st).report.StatusCodeCounts c =
      if rs.countP (Result.hasCode c) = 0 then StatusMap.find st.report.StatusCodeCounts c
      else some (StatusMap.get st.report.StatusCodeCounts c + rs.countP (Result.hasCode c)) := by
  induction rs generalizing st with
  | nil => simp
  | cons r rs ih =>
    simp only [List.foldl_cons, ih, collectStep_StatusCodeCounts, List.countP_cons]
    by_cases hE : r.isError = true
    · have hc : r.hasCode c = false := by
        cases h : r.hasCode c
        · rfl
        · rw [hasCode_isError c r h] at hE
          exact absurd hE (by decide)
      simp [hE, hc]
    · have hE' : r.isError = false := by simpa using hE
      by_cases hk : r.StatusCode = c
      · have hc : r.hasCode c = true := (hasCode_iff c r).2 ⟨hE', hk⟩
        simp only [hE', hc, StatusMap.get_incr, StatusMap.find_incr, hk, if_true, Bool.false_eq_true,
          if_false]
        by_cases h0 : rs.countP (Result.hasCode c) = 0
        · simp [h0, StatusMap.get]
        · simp [h0]
          ring
      · have hc : r.hasCode c = false := by
          cases h : r.hasCode c
          · rfl
          · exact absurd ((hasCode_iff c r).1 h).2 hk
        simp [hE', hc, StatusMap.get_incr, StatusMap.find_incr, hk]

theorem foldl_sumValues (rs : List Result) (st : CollectState) :
    StatusMap.sumValues (rs.foldl collectStep st).report.StatusCodeCounts =
      StatusMap.sumValues st.report.StatusCodeCounts + rs.countP (fun r => !r.isError) := by
  induction rs generalizing st with
  | nil => simp
  | cons r rs ih =>
    simp only [List.foldl_cons, ih, collectStep_StatusCodeCounts, List.countP_cons]
    by_cases hE : r.isError = true
    · simp [hE]
    · have hE' : r.isError = false := by simpa using hE
      simp [hE', StatusMap.sumValues_incr]
      ring

theorem foldl_totalDuration (rs : List Result) (st : CollectState)
    (hst : wrap64 st.totalDuration = st.totalDuration) :
    (rs.foldl collectStep st).totalDuration = wrap64 (st.totalDuration + durationSum rs) := by
  induction rs generalizing st with
  | nil => simp [durationSum, hst]
  | cons r rs ih =>
    have h1 : wrap64 (collectStep st r).totalDuration = (collectStep st r).totalDuration := by
      rw [collectStep_totalDuration]
      unfold wrap64
      omega
    simp only [List.foldl_cons]
    rw [ih _ h1, collectStep_totalDuration, wrap64_add_wrap64]
    simp [durationSum, add_assoc]

theorem foldl_MinResponseTime (rs : List Result) (st : CollectState) :
    (rs.foldl collectStep st).report.MinResponseTime =
      (rs.map Result.Duration).foldl min st.report.MinResponseTime := by
  induction rs generalizing st with
  | nil => simp
  | cons r rs ih => simp only [List.foldl_cons, ih, collectStep_MinResponseTime, List.map_cons]

theorem foldl_MaxResponseTime (rs : List Result) (st : CollectState) :
    (rs.foldl collectStep st).report.MaxResponseTime =
      (rs.map Result.Duration).foldl max st.report.MaxResponseTime := by
  induction rs generalizing st with
  | nil => simp
  | cons r rs ih => simp only [List.foldl_cons, ih, collectStep_MaxResponseTime, List.map_cons]

theorem foldl_min_le_init (ds : List Int) (m : Int) : ds.foldl min m ≤ m := by
  induction ds generalizing m with
  | nil => simp
  | cons d ds ih => exact le_trans (ih (min m d)) (min_le_left m d)

theorem foldl_min_le_mem (ds : List Int) (m d : Int) (hd : d ∈ ds) : ds.foldl min m ≤ d := by
  induction ds generalizing m with
  | nil => simp at hd
  | cons e ds ih =>
    rcases List.mem_cons.1 hd with h | h
    · subst h
      exact le_trans (foldl_min_le_init ds (min m d)) (min_le_right m d)
    · exact ih (min m e) h

theorem foldl_min_eq (ds : List Int) (m : Int) : ds.foldl min m = m ∨ ds.foldl min m ∈ ds := by
  induction ds generalizing m with
  | nil => simp
  | cons e ds ih =>
    rcases ih (min m e) with h | h
    · rcases min_choice m e with h2 | h2
      · left
        simpa [h2] using h
      · right
        rw [h2] at h
        simp only [List.foldl_cons, h2, h, List.mem_cons, true_or]
    · right
      exact List.mem_cons_of_mem _ h

theorem foldl_max_ge_init (ds : List Int) (m : Int) : m ≤ ds.foldl max m := by
  induction ds generalizing m with
  | nil => simp
  | cons d ds ih => exact le_trans (le_max_left m d) (ih (max m d))

theorem foldl_max_ge_mem (ds : List Int) (m d : Int) (hd : d ∈ ds) : d ≤ ds.foldl max m := by
  induction ds generalizing m with
  | nil => simp at hd
  | cons e ds ih =>
    rcases List.mem_cons.1 hd with h | h
    · subst h
      exact le_trans (le_max_right m d) (foldl_max_ge_init ds (max m d))
    · exact ih (max m e) h


/-! ## Lemmas on the code after the loop -/

theorem collectFinish_TotalRequests (st : CollectState) (e : Int) :
    (collectFinish st e).TotalRequests = st.report.TotalRequests := by
  unfold collectFinish
  simp only []
  split_ifs <;> rfl

theorem collectFinish_SuccessfulReqs (st : CollectState) (e : Int) :
    (collectFinish st e).SuccessfulReqs = st.report.SuccessfulReqs := by
  unfold collectFinish
  simp only []
  split_ifs <;> rfl

theorem collectFinish_ErrorCount (st : CollectState) (e : Int) :
    (collectFinish st e).ErrorCount = st.report.ErrorCount := by
  unfold collectFinish
  simp only []
  split_ifs <;> rfl

theorem collectFinish_StatusCodeCounts (st : CollectState) (e : Int) :
    (collectFinish st e).StatusCodeCounts = st.report.StatusCodeCounts := by
  unfold collectFinish
  simp only []
  split_ifs <;> rfl

theorem collectFinish_MaxResponseTime (st : CollectState) (e : Int) :
    (collectFinish st e).MaxResponseTime = st.report.MaxResponseTime := by
  unfold collectFinish
  simp only []
  split_ifs <;> rfl

theorem collectFinish_MinResponseTime (st : CollectState) (e : Int) :
    (collectFinish st e).MinResponseTime =
      if st.report.MinResponseTime = timeHour then 0 else st.report.MinResponseTime := by
  unfold collectFinish
  simp only []
  split_ifs <;> rfl

theorem collectFinish_AvgResponseTime (st : CollectState) (e : Int) :
    (collectFinish st e).AvgResponseTime =
      if st.report.TotalRequests > 0 then Int.tdiv st.totalDuration st.report.TotalRequests
      else st.report.AvgResponseTime := by
  unfold collectFinish
  simp only []
  split_ifs <;> rfl

theorem foldl_AvgResponseTime (rs : List Result) (st : CollectState) :
    (rs.foldl collectStep st).report.AvgResponseTime = st.report.AvgResponseTime := by
  induction rs generalizing st with
  | nil => simp
  | cons r rs ih =>
    simp only [List.foldl_cons, ih]
    unfold collectStep
    simp only []
    split_ifs <;> rfl

/-! ## Closed forms of the fields of `collectResults` -/

theorem collectResults_TotalRequests (rs : List Result) (e : Int) :
    (collectResults rs e).TotalRequests = rs.length := by
  simp [collectResults, collectLoop, collectFinish_TotalRequests, foldl_TotalRequests, collectInit]

theorem collectResults_ErrorCount (rs : List Result) (e : Int) :
    (collectResults rs e).ErrorCount = rs.countP Result.isError := by
  simp [collectResults, collectLoop, collectFinish_ErrorCount, foldl_ErrorCount, collectInit]

theorem collectResults_SuccessfulReqs (rs : List Result) (e : Int) :
    (collectResults rs e).SuccessfulReqs = rs.countP (Result.hasCode 200) := by
  simp [collectResults, collectLoop, collectFinish_SuccessfulReqs, foldl_SuccessfulReqs,
    collectInit]

theorem collectResults_find (rs : List Result) (e : Int) (c : Int) :
    StatusMap.find (collectResults rs e).StatusCodeCounts c =
      if rs.countP (Result.hasCode c) = 0 then none
      else some (rs.countP (Result.hasCode c) : Int) := by
  simp [collectResults, collectLoop, collectFinish_StatusCodeCounts, foldl_find, collectInit,
    StatusMap.find, StatusMap.get]

theorem collectResults_get (rs : List Result) (e : Int) (c : Int) :
    StatusMap.get (collectResults rs e).StatusCodeCounts c = rs.countP (Result.hasCode c) := by
  rw [collectResults, collectLoop, collectFinish_StatusCodeCounts, foldl_get]
  simp [collectInit, StatusMap.find, StatusMap.get]

theorem collectResults_sumValues (rs : List Result) (e : Int) :
    StatusMap.sumValues (collectResults rs e).StatusCodeCounts =
      rs.countP (fun r => !r.isError) := by
  rw [collectResults, collectLoop, collectFinish_StatusCodeCounts, foldl_sumValues]
  simp [collectInit, StatusMap.sumValues]

theorem collectResults_MaxResponseTime (rs : List Result) (e : Int) :
    (collectResults rs e).MaxResponseTime = (rs.map Result.Duration).foldl max 0 := by
  simp [collectResults, collectLoop, collectFinish_MaxResponseTime, foldl_MaxResponseTime,
    collectInit]

theorem collectResults_MinResponseTime (rs : List Result) (e : Int) :
    (collectResults rs e).MinResponseTime =
      if (rs.map Result.Duration).foldl min timeHour = timeHour then 0
      else (rs.map Result.Duration).foldl min timeHour := by
  simp [collectResults, collectLoop, collectFinish_MinResponseTime, foldl_MinResponseTime,
    collectInit]

theorem collectResults_AvgResponseTime (rs : List Result) (e : Int) :
    (collectResults rs e).AvgResponseTime =
      if rs = [] then 0 else Int.tdiv (wrap64 (durationSum rs)) rs.length := by
  have hw : wrap64 collectInit.totalDuration = collectInit.totalDuration := by decide
  rw [collectResults, collectLoop, collectFinish_AvgResponseTime, foldl_TotalRequests,
    foldl_AvgResponseTime, foldl_totalDuration rs collectInit hw]
  cases rs with
  | nil => simp [collectInit]
  | cons r rs =>
    have : (0 : Int) < 0 + ((r :: rs).length : Int) := by
      simp only [List.length_cons]
      push_cast
      omega
    simp [collectInit, this]

/-! ## Lemmas on the transition system of `Run` -/

theorem countP_set_of_getElem? {α : Type} (p : α → Bool) (l : List α) (i : Nat) (old new : α)
    (h : l[i]? = some old) :
    (l.set i new).countP p + (if p old then 1 else 0) =
      l.countP p + (if p new then 1 else 0) := by
  induction l generalizing i with
  | nil => simp at h
  | cons x l ih =>
    cases i with
    | zero =>
      simp only [List.getElem?_cons_zero, Option.some.injEq] at h
      subst h
      simp only [List.set_cons_zero, List.countP_cons]
      omega
    | succ i =>
      simp only [List.getElem?_cons_succ] at h
      have := ih i h
      simp only [List.set_cons_succ, List.countP_cons]
      omega

theorem sum_map_set_of_getElem? {α : Type} (f : α → Nat) (l : List α) (i : Nat) (old new : α)
    (h : l[i]? = some old) :
    ((l.set i new).map f).sum + f old = (l.map f).sum + f new := by
  induction l generalizing i with
  | nil => simp at h
  | cons x l ih =>
    cases i with
    | zero =>
      simp only [List.getElem?_cons_zero, Option.some.injEq] at h
      subst h
      simp only [List.set_cons_zero, List.map_cons, List.sum_cons]
      omega
    | succ i =>
      simp only [List.getElem?_cons_succ] at h
      have := ih i h
      simp only [List.set_cons_succ, List.map_cons, List.sum_cons]
      omega

theorem countP_pos_of_getElem? {α : Type} (p : α → Bool) (l : List α) (i : Nat) (x : α)
    (h : l[i]? = some x) (hp : p x = true) : 0 < l.countP p := by
  rw [List.countP_pos_iff]
  exact ⟨x, List.getElem?_mem h, hp⟩

theorem exists_getElem?_of_countP_pos {α : Type} (p : α → Bool) (l : List α)
    (h : 0 < l.countP p) : ∃ (i : Nat) (x : α), l[i]? = some x ∧ p x = true := by
  rw [List.countP_pos_iff] at h
  obtain ⟨x, hx, hp⟩ := h
  obtain ⟨i, hi⟩ := List.getElem?_of_mem hx
  exact ⟨i, x, hi, hp⟩

theorem countP_holding_le_notDone (l : List TaskPc) :
    l.countP TaskPc.holding ≤ l.countP TaskPc.notDone := by
  induction l with
  | nil => simp
  | cons x l ih =>
    simp only [List.countP_cons]
    cases x <;> simp [TaskPc.holding, TaskPc.notDone] <;> omega

theorem countP_delivered_of_notDone_zero (l : List TaskPc) (h : l.countP TaskPc.notDone = 0) :
    l.countP TaskPc.delivered = l.length := by
  rw [List.countP_eq_zero] at h
  rw [List.countP_eq_length]
  intro x hx
  have := h x hx
  cases x <;> simp_all [TaskPc.delivered, TaskPc.notDone]

theorem countP_delivered_lt (l : List TaskPc) (i : Nat) (x : TaskPc) (h : l[i]? = some x)
    (hx : x.delivered = false) : l.countP TaskPc.delivered < l.length := by
  have h1 : l.countP TaskPc.delivered ≤ l.length := List.countP_le_length _
  rcases Nat.lt_or_ge (l.countP TaskPc.delivered) l.length with h2 | h2
  · exact h2
  · have h3 : l.countP TaskPc.delivered = l.length := le_antisymm h1 h2
    rw [List.countP_eq_length] at h3
    have := h3 x (List.getElem?_mem h)
    rw [hx] at this
    exact absurd this (by decide)

theorem countP_inRequest_le_holding (l : List TaskPc) :
    l.countP TaskPc.inRequest ≤ l.countP TaskPc.holding := by
  induction l with
  | nil => simp
  | cons x l ih =>
    simp only [List.countP_cons]
    cases x <;> simp [TaskPc.inRequest, TaskPc.holding] <;> omega

theorem Run.init_inv (maxCap : Nat) (config : Config) (s : RunState)
    (h : Run.init maxCap config = some s) : Run.Inv s := by
  unfold Run.init at h
  split_ifs at h
  simp only [Option.some.injEq] at h
  subst h
  constructor <;> simp [collectInit]

theorem Run.task_step_inv (s : RunState) (hinv : Run.Inv s) (i : Nat) (old new : TaskPc)
    (ht : s.tasks[i]? = some old) (hold : old.notDone = true)
    (sem : Nat) (res : List Result) (wg : Int)
    (hwg : wg + ((if old.notDone then 1 else 0 : Nat) : Int) =
      s.wg + ((if new.notDone then 1 else 0 : Nat) : Int))
    (hsem : sem + (if old.holding then 1 else 0) = s.semaphore + (if new.holding then 1 else 0))
    (hsemle : sem ≤ s.concurrency)
    (hres : res.length + (if old.delivered then 1 else 0) =
      s.results.length + (if new.delivered then 1 else 0)) :
    Run.Inv { s with tasks := s.tasks.set i new, semaphore := sem, results := res, wg := wg } := by
  obtain ⟨i1, i2, i3, i4, i5, i6, i7, i8, i9, i10, i11, i12⟩ := hinv
  have c1 := countP_set_of_getElem? TaskPc.notDone s.tasks i old new ht
  have c2 := countP_set_of_getElem? TaskPc.holding s.tasks i old new ht
  have c3 := countP_set_of_getElem? TaskPc.delivered s.tasks i old new ht
  have c4 := countP_pos_of_getElem? TaskPc.notDone s.tasks i old ht hold
  refine ⟨?_, ?_, ?_, hsemle, ?_, i6, ?_, ?_, i9, i10, i11, i12⟩
  · dsimp only
    rw [List.length_set]
    exact i1
  · dsimp only
    omega
  · dsimp only
    omega
  · dsimp only
    omega
  · intro hm
    have := i7 hm
    dsimp only
    rw [List.length_set]
    exact this
  · intro hc
    have := i8 hc
    omega

theorem Run.step_inv (s t : RunState) (a : Action) (hinv : Run.Inv s)
    (h : Run.step s a = some t) : Run.Inv t := by
  have hinv0 := hinv
  obtain ⟨i1, i2, i3, i4, i5, i6, i7, i8, i9, i10, i11, i12⟩ := hinv
  unfold Run.step at h
  rw [if_neg (by simp [i11])] at h
  cases a with
  | launch =>
    simp only [] at h
    split_ifs at h with hg
    simp only [Option.some.injEq] at h
    subst h
    obtain ⟨hm, hl⟩ := hg
    have h6 := i6 hm
    refine ⟨?_, ?_, ?_, i4, ?_, i6, ?_, ?_, i9, i10, i11, i12⟩
    · simp only [List.length_append, List.length_singleton]
      omega
    · have : [TaskPc.waiting].countP TaskPc.notDone = 1 := rfl
      simp only [List.countP_append, this]
      push_cast
      omega
    · have : [TaskPc.waiting].countP TaskPc.holding = 0 := rfl
      simp only [List.countP_append, this]
      omega
    · have : [TaskPc.waiting].countP TaskPc.delivered = 0 := rfl
      simp only [List.countP_append, this]
      omega
    · intro hne
      exact absurd hm hne
    · intro hc
      rw [h6.1] at hc
      rcases hc with hc | hc <;> exact absurd hc (by decide)
  | startCollect =>
    simp only [] at h
    split_ifs at h with hg
    simp only [Option.some.injEq] at h
    subst h
    obtain ⟨hm, hl⟩ := hg
    have h6 := i6 hm
    refine ⟨i1, i2, i3, i4, ?_, ?_, ?_, ?_, ?_, ?_, i11, le_refl _⟩
    · have : collectInit.report.TotalRequests = 0 := rfl
      dsimp only
      rw [this]
      have := h6.2
      omega
    · intro hc
      exact absurd hc (by simp)
    · intro _
      dsimp only
      exact ⟨by omega, by decide⟩
    · intro hc
      rcases hc with hc | hc <;> exact absurd hc (by simp)
    · dsimp only
      rw [i9, h6.1]
      simp
    · intro rep hc
      exact absurd hc (by simp)
  | acquire i =>
    simp only [] at h
    split_ifs at h with hg
    simp only [Option.some.injEq] at h
    subst h
    obtain ⟨ht, hl⟩ := hg
    exact Run.task_step_inv s hinv0 i _ _ ht rfl _ _ _ (by simp [TaskPc.notDone])
      (by simp [TaskPc.holding]) (by omega) (by simp [TaskPc.delivered])
  | handOver i j =>
    simp only [] at h
    split_ifs at h with hg
    simp only [Option.some.injEq] at h
    subst h
    obtain ⟨hc, hti, htj⟩ := hg
    have hh := countP_pos_of_getElem? TaskPc.holding s.tasks j _ htj rfl
    omega
  | makeRequest i r =>
    simp only [] at h
    split_ifs at h with ht
    simp only [Option.some.injEq] at h
    subst h
    exact Run.task_step_inv s hinv0 i _ _ ht rfl _ _ _ (by simp [TaskPc.notDone])
      (by simp [TaskPc.holding]) i4 (by simp [TaskPc.delivered])
  | send i =>
    simp only [] at h
    split at h
    · rename_i r ht
      have c4 := countP_pos_of_getElem? TaskPc.notDone s.tasks i _ ht rfl
      split_ifs at h with hcl hlen
      · have := i8 (Or.inr (i9.1 hcl))
        omega
      · simp only [Option.some.injEq] at h
        subst h
        exact Run.task_step_inv s hinv0 i _ _ ht rfl _ _ _ (by simp [TaskPc.notDone])
          (by simp [TaskPc.holding]) i4 (by simp [TaskPc.delivered])
    · exact absurd h (by simp)
  | release i =>
    simp only [] at h
    split_ifs at h with hg
    simp only [Option.some.injEq] at h
    subst h
    obtain ⟨ht, hl⟩ := hg
    exact Run.task_step_inv s hinv0 i _ _ ht rfl _ _ _ (by simp [TaskPc.notDone])
      (by simp [TaskPc.holding]; omega) (by omega) (by simp [TaskPc.delivered])
  | wgDone i =>
    simp only [] at h
    split_ifs at h with ht hneg
    · have c4 := countP_pos_of_getElem? TaskPc.notDone s.tasks i _ ht rfl
      omega
    · simp only [Option.some.injEq] at h
      subst h
      exact Run.task_step_inv s hinv0 i _ _ ht rfl _ _ _ (by simp [TaskPc.notDone])
        (by simp [TaskPc.holding]) i4 (by simp [TaskPc.delivered])
  | waitReturn =>
    simp only [] at h
    split_ifs at h with hg
    simp only [Option.some.injEq] at h
    subst h
    obtain ⟨hc, hw⟩ := hg
    refine ⟨i1, i2, i3, i4, i5, ?_, ?_, ?_, ?_, ?_, i11, i12⟩
    · intro hm
      have := (i6 hm).1
      rw [hc] at this
      exact absurd this (by decide)
    · intro hm
      exact ⟨(i7 hm).1, by simp⟩
    · intro _
      exact hw
    · dsimp only
      rw [i9, hc]
      simp
    · intro rep hm
      have := (i10 rep hm).2
      rw [hc] at this
      exact absurd this (by decide)
  | closeResults =>
    simp only [] at h
    split_ifs at h with hc hcl
    · have := i9.1 hcl
      rw [hc] at this
      exact absurd this (by decide)
    · simp only [Option.some.injEq] at h
      subst h
      refine ⟨i1, i2, i3, i4, i5, ?_, ?_, ?_, ?_, ?_, i11, i12⟩
      · intro hm
        have := (i6 hm).1
        rw [hc] at this
        exact absurd this (by decide)
      · intro hm
        exact ⟨(i7 hm).1, by simp⟩
      · intro _
        exact i8 (Or.inl hc)
      · simp
      · intro rep hm
        exact ⟨(i10 rep hm).1, rfl⟩
  | receive =>
    simp only [] at h
    split_ifs at h with hm
    split at h
    · rename_i r rest hres
      simp only [Option.some.injEq] at h
      subst h
      have hT := collectStep_TotalRequests s.collect r
      refine ⟨i1, i2, i3, i4, ?_, ?_, i7, i8, i9, i10, i11, by dsimp only; omega⟩
      · dsimp only
        rw [hT]
        rw [hres] at i5
        simp only [List.length_cons] at i5
        push_cast at i5
        omega
      · intro hl
        rw [hm] at hl
        exact absurd hl (by simp)
    · exact absurd h (by simp)
  | finish elapsed =>
    simp only [] at h
    split_ifs at h with hg
    simp only [Option.some.injEq] at h
    subst h
    obtain ⟨hm, hres, hcl⟩ := hg
    have hd := i9.1 hcl
    have hw := i8 (Or.inr hd)
    have h7 := i7 (by rw [hm]; simp)
    have hnd : s.tasks.countP TaskPc.notDone = 0 := by omega
    have hdel := countP_delivered_of_notDone_zero s.tasks hnd
    have hT := collectFinish_TotalRequests s.collect elapsed
    refine ⟨i1, i2, i3, i4, i5, ?_, ?_, i8, i9, ?_, i11, i12⟩
    · intro hl
      exact absurd hl (by simp)
    · intro _
      exact h7
    · intro rep hrep
      simp only [MainPc.returned.injEq] at hrep
      subst hrep
      refine ⟨?_, hd⟩
      dsimp only
      rw [hT]
      rw [hres] at i5
      simp only [List.length_nil] at i5
      omega

theorem Run.exec_inv (sched : List Action) (s t : RunState) (hinv : Run.Inv s)
    (h : Run.exec s sched = some t) : Run.Inv t := by
  induction sched generalizing s with
  | nil =>
    simp only [Run.exec, Option.some.injEq] at h
    subst h
    exact hinv
  | cons a rest ih =>
    simp only [Run.exec] at h
    split at h
    · rename_i u hu
      exact ih u (Run.step_inv s u a hinv hu) h
    · exact absurd h (by simp)

theorem Run.step_measure (s t : RunState) (a : Action) (h : Run.step s a = some t) :
    t.measure < s.measure := by
  have hp' : s.panicked = false := by
    cases hp : s.panicked
    · rfl
    · unfold Run.step at h
      rw [if_pos hp] at h
      exact absurd h (by simp)
  unfold Run.step at h
  rw [if_neg (by simp [hp'])] at h
  cases a with
  | launch =>
    simp only [] at h
    split_ifs at h with hg
    simp only [Option.some.injEq] at h
    subst h
    simp only [RunState.measure, List.length_append, List.length_singleton, List.map_append,
      List.sum_append, List.map_cons, List.map_nil, List.sum_cons, List.sum_nil, TaskPc.rank]
    omega
  | startCollect =>
    simp only [] at h
    split_ifs at h with hg
    simp only [Option.some.injEq] at h
    subst h
    simp only [RunState.measure, hg.1]
    rw [show CloserPc.waiting.rank = 2 from rfl, show MainPc.collecting.rank = 1 from rfl,
      show MainPc.launching.rank = 4 from rfl]
    omega
  | acquire i =>
    simp only [] at h
    split_ifs at h with hg
    simp only [Option.some.injEq] at h
    subst h
    have c := sum_map_set_of_getElem? TaskPc.rank s.tasks i _ TaskPc.running hg.1
    simp only [TaskPc.rank] at c
    simp only [RunState.measure, List.length_set]
    omega
  | handOver i j =>
    simp only [] at h
    split_ifs at h with hg
    simp only [Option.some.injEq] at h
    subst h
    obtain ⟨_, hti, htj⟩ := hg
    have hij : i ≠ j := by
      intro hij
      subst hij
      rw [hti] at htj
      exact absurd htj (by simp)
    have htj' : (s.tasks.set i TaskPc.running)[j]? = some TaskPc.sent := by
      rw [List.getElem?_set_ne hij]
      exact htj
    have c := sum_map_set_of_getElem? TaskPc.rank s.tasks i _ TaskPc.running hti
    have d := sum_map_set_of_getElem? TaskPc.rank (s.tasks.set i TaskPc.running) j _
      TaskPc.released htj'
    simp only [TaskPc.rank] at c d
    simp only [RunState.measure, List.length_set]
    omega
  | makeRequest i r =>
    simp only [] at h
    split_ifs at h with hg
    simp only [Option.some.injEq] at h
    subst h
    have c := sum_map_set_of_getElem? TaskPc.rank s.tasks i _ (TaskPc.hasResult r) hg
    simp only [TaskPc.rank] at c
    simp only [RunState.measure, List.length_set]
    omega
  | send i =>
    simp only [] at h
    split at h
    · rename_i r ht
      split_ifs at h with hcl hlen
      · simp only [Option.some.injEq] at h
        subst h
        simp only [RunState.measure, hp', if_true, Bool.false_eq_true, if_false]
        omega
      · simp only [Option.some.injEq] at h
        subst h
        have c := sum_map_set_of_getElem? TaskPc.rank s.tasks i _ TaskPc.sent ht
        simp only [TaskPc.rank] at c
        simp only [RunState.measure, List.length_set, List.length_append, List.length_singleton]
        omega
    · exact absurd h (by simp)
  | release i =>
    simp only [] at h
    split_ifs at h with hg
    simp only [Option.some.injEq] at h
    subst h
    have c := sum_map_set_of_getElem? TaskPc.rank s.tasks i _ TaskPc.released hg.1
    simp only [TaskPc.rank] at c
    simp only [RunState.measure, List.length_set]
    omega
  | wgDone i =>
    simp only [] at h
    split_ifs at h with ht hneg
    · simp only [Option.some.injEq] at h
      subst h
      simp only [RunState.measure, hp', if_true, Bool.false_eq_true, if_false]
      omega
    · simp only [Option.some.injEq] at h
      subst h
      have c := sum_map_set_of_getElem? TaskPc.rank s.tasks i _ TaskPc.done ht
      simp only [TaskPc.rank] at c
      simp only [RunState.measure, List.length_set]
      omega
  | waitReturn =>
    simp only [] at h
    split_ifs at h with hg
    simp only [Option.some.injEq] at h
    subst h
    simp only [RunState.measure, hg.1, CloserPc.rank]
    omega
  | closeResults =>
    simp only [] at h
    split_ifs at h with hc hcl
    · simp only [Option.some.injEq] at h
      subst h
      simp only [RunState.measure, hp', if_true, Bool.false_eq_true, if_false]
      omega
    · simp only [Option.some.injEq] at h
      subst h
      simp only [RunState.measure, hc, CloserPc.rank]
      omega
  | receive =>
    simp only [] at h
    split_ifs at h with hm
    split at h
    · rename_i r rest hres
      simp only [Option.some.injEq] at h
      subst h
      simp only [RunState.measure, hres, List.length_cons]
      omega
    · exact absurd h (by simp)
  | finish elapsed =>
    simp only [] at h
    split_ifs at h with hg
    simp only [Option.some.injEq] at h
    subst h
    simp only [RunState.measure, hg.1, MainPc.rank]
    omega

theorem Run.exec_measure (sched : List Action) (s t : RunState)
    (h : Run.exec s sched = some t) : sched.length + t.measure ≤ s.measure := by
  induction sched generalizing s with
  | nil =>
    simp only [Run.exec, Option.some.injEq] at h
    subst h
    simp
  | cons a rest ih =>
    simp only [Run.exec] at h
    split at h
    · rename_i u hu
      have h1 := ih u h
      have h2 := Run.step_measure s u a hu
      simp only [List.length_cons]
      omega
    · exact absurd h (by simp)

theorem Run.init_measure (maxCap : Nat) (config : Config) (s : RunState)
    (h : Run.init maxCap config = some s) :
    s.measure = 11 * config.Requests.toNat + 8 ∧ s.requests = config.Requests ∧
      s.concurrency = config.Concurrency := by
  unfold Run.init at h
  split_ifs at h with hneg
  simp only [Option.some.injEq] at h
  subst h
  simp only [RunState.measure, List.length_nil, List.map_nil, List.sum_nil, CloserPc.rank,
    MainPc.rank]
  refine ⟨by simp, ?_, ?_⟩
  · simp only [Int.toNat_of_nonneg (by omega : 0 ≤ config.Requests)]
  · simp only [Int.toNat_of_nonneg (by omega : 0 ≤ config.Concurrency)]

theorem Run.progress (s : RunState) (hinv : Run.Inv s) (hc : 1 ≤ s.concurrency)
    (hr : s.report = none) : ∃ a t, Run.step s a = some t := by
  obtain ⟨i1, i2, i3, i4, i5, i6, i7, i8, i9, i10, i11, i12⟩ := hinv
  have hstep : ∀ a, Run.step s a = (if s.panicked = true then none else Run.step s a) := by
    intro a
    simp [i11]
  cases hm : s.main with
  | returned rep => simp [RunState.report, hm] at hr
  | launching =>
    by_cases hl : s.tasks.length < s.requests
    · exact ⟨.launch, _, by simp [Run.step, i11, hm, hl]; rfl⟩
    · exact ⟨.startCollect, _, by simp [Run.step, i11, hm, hl]; rfl⟩
  | collecting =>
    have h7 := i7 (by rw [hm]; simp)
    cases hres : s.results with
    | cons r rest => exact ⟨.receive, _, by simp [Run.step, i11, hm, hres]; rfl⟩
    | nil =>
      by_cases hh : 0 < s.tasks.countP TaskPc.holding
      · obtain ⟨i, pc, ht, hpc⟩ := exists_getElem?_of_countP_pos _ _ hh
        have hnd : 0 < s.tasks.countP TaskPc.notDone :=
          lt_of_lt_of_le hh (countP_holding_le_notDone s.tasks)
        have hncl : s.closed = false := by
          cases hcl : s.closed
          · rfl
          · have := i8 (Or.inr (i9.1 hcl))
            omega
        cases pc with
        | running =>
          exact ⟨.makeRequest i ⟨0, 0, none⟩, _, by simp [Run.step, i11, ht]; rfl⟩
        | hasResult r =>
          have hlt := countP_delivered_lt s.tasks i _ ht rfl
          have hlen : s.results.length < s.requests := by
            rw [hres]
            simp only [List.length_nil]
            omega
          exact ⟨.send i, _, by simp [Run.step, i11, ht, hncl, hlen]; rfl⟩
        | sent =>
          have : 0 < s.semaphore := by omega
          exact ⟨.release i, _, by simp [Run.step, i11, ht, this]; rfl⟩
        | waiting => simp [TaskPc.holding] at hpc
        | released => simp [TaskPc.holding] at hpc
        | done => simp [TaskPc.holding] at hpc
      · have hsem : s.semaphore = 0 := by omega
        by_cases hnd : 0 < s.tasks.countP TaskPc.notDone
        · obtain ⟨i, pc, ht, hpc⟩ := exists_getElem?_of_countP_pos _ _ hnd
          have hnh : pc.holding = false := by
            cases hph : pc.holding
            · rfl
            · exact absurd (countP_pos_of_getElem? TaskPc.holding s.tasks i pc ht hph) hh
          cases pc with
          | waiting =>
            have : s.semaphore < s.concurrency := by omega
            exact ⟨.acquire i, _, by simp [Run.step, i11, ht, this]; rfl⟩
          | released =>
            have : ¬ s.wg - 1 < 0 := by omega
            exact ⟨.wgDone i, _, by simp [Run.step, i11, ht, this]; rfl⟩
          | running => simp [TaskPc.holding] at hnh
          | hasResult r => simp [TaskPc.holding] at hnh
          | sent => simp [TaskPc.holding] at hnh
          | done => simp [TaskPc.notDone] at hpc
        · have hwg : s.wg = 0 := by omega
          cases hcl : s.closer with
          | notStarted => exact absurd hcl h7.2
          | waiting => exact ⟨.waitReturn, _, by simp [Run.step, i11, hcl, hwg]; rfl⟩
          | closing =>
            have hncl : s.closed = false := by
              cases hcd : s.closed
              · rfl
              · have := i9.1 hcd
                rw [hcl] at this
                exact absurd this (by decide)
            exact ⟨.closeResults, _, by simp [Run.step, i11, hcl, hncl]; rfl⟩
          | done =>
            have hcd : s.closed = true := i9.2 hcl
            exact ⟨.finish 0, _, by simp [Run.step, i11, hm, hres, hcd]; rfl⟩

theorem Run.step_params (s t : RunState) (a : Action) (h : Run.step s a = some t) :
    t.requests = s.requests ∧ t.concurrency = s.concurrency := by
  unfold Run.step at h
  split at h
  · exact absurd h (by simp)
  · cases a with
    | send i =>
      simp only [] at h
      split at h
      · split_ifs at h <;> simp only [Option.some.injEq] at h <;> subst h <;> exact ⟨rfl, rfl⟩
      · exact absurd h (by simp)
    | receive =>
      simp only [] at h
      split_ifs at h
      split at h
      · simp only [Option.some.injEq] at h
        subst h
        exact ⟨rfl, rfl⟩
      · exact absurd h (by simp)
    | launch | startCollect | acquire i | handOver i j | makeRequest i r | release i
    | wgDone i | waitReturn | closeResults | finish e =>
      simp only [] at h
      split_ifs at h <;> simp only [Option.some.injEq] at h <;> subst h <;> exact ⟨rfl, rfl⟩

theorem Run.exec_params (sched : List Action) (s t : RunState)
    (h : Run.exec s sched = some t) :
    t.requests = s.requests ∧ t.concurrency = s.concurrency := by
  induction sched generalizing s with
  | nil =>
    simp only [Run.exec, Option.some.injEq] at h
    subst h
    exact ⟨rfl, rfl⟩
  | cons a rest ih =>
    simp only [Run.exec] at h
    split at h
    · rename_i u hu
      have h1 := ih u h
      have h2 := Run.step_params s u a hu
      exact ⟨h1.1.trans h2.1, h1.2.trans h2.2⟩
    · exact absurd h (by simp)

theorem Run.exec_append (l₁ l₂ : List Action) (s t u : RunState)
    (h₁ : Run.exec s l₁ = some t) (h₂ : Run.exec t l₂ = some u) :
    Run.exec s (l₁ ++ l₂) = some u := by
  induction l₁ generalizing s with
  | nil =>
    simp only [Run.exec, Option.some.injEq] at h₁
    subst h₁
    exact h₂
  | cons a rest ih =>
    simp only [Run.exec] at h₁
    split at h₁
    · rename_i v hv
      simp only [List.cons_append, Run.exec, hv]
      exact ih v h₁
    · exact absurd h₁ (by simp)

theorem Run.exists_return (n : Nat) (s : RunState) (hn : s.measure ≤ n) (hinv : Run.Inv s)
    (hc : 1 ≤ s.concurrency) :
    ∃ sched t rep, Run.exec s sched = some t ∧ t.report = some rep := by
  induction n generalizing s with
  | zero =>
    cases hr : s.report with
    | some rep => exact ⟨[], s, rep, rfl, hr⟩
    | none =>
      obtain ⟨a, t, ht⟩ := Run.progress s hinv hc hr
      have := Run.step_measure s t a ht
      omega
  | succ n ih =>
    cases hr : s.report with
    | some rep => exact ⟨[], s, rep, rfl, hr⟩
    | none =>
      obtain ⟨a, t, ht⟩ := Run.progress s hinv hc hr
      have hm := Run.step_measure s t a ht
      have hp := Run.step_params s t a ht
      obtain ⟨sched, u, rep, hu, hrep⟩ :=
        ih t (by omega) (Run.step_inv s t a hinv ht) (by rw [hp.2]; exact hc)
      refine ⟨a :: sched, u, rep, ?_, hrep⟩
      simp only [Run.exec, ht]
      exact hu

theorem Run.report_eq (s : RunState) (rep : Report) :
    s.report = some rep ↔ s.main = .returned rep := by
  unfold RunState.report
  cases s.main <;> simp

/-! ## The execution of `Run` with concurrency zero -/

theorem Run.stuckState_step (a : Action) : Run.step Run.stuckState a = none := by
  cases a with
  | acquire i => simp [Run.step, Run.stuckState]
  | handOver i j =>
    cases j with
    | zero => simp [Run.step, Run.stuckState]
    | succ j => simp [Run.step, Run.stuckState]
  | makeRequest i r =>
    cases i with
    | zero => simp [Run.step, Run.stuckState]
    | succ i => simp [Run.step, Run.stuckState]
  | send i =>
    cases i with
    | zero => simp [Run.step, Run.stuckState]
    | succ i => simp [Run.step, Run.stuckState]
  | release i => simp [Run.step, Run.stuckState]
  | wgDone i =>
    cases i with
    | zero => simp [Run.step, Run.stuckState]
    | succ i => simp [Run.step, Run.stuckState]
  | launch | startCollect | waitReturn | closeResults | receive | finish e =>
    simp [Run.step, Run.stuckState]

theorem Run.stuckMid_step (a : Action) (t : RunState) (h : Run.step Run.stuckMid a = some t) :
    t = Run.stuckState := by
  cases a with
  | startCollect =>
    have : Run.step Run.stuckMid .startCollect = some Run.stuckState := by decide
    rw [this] at h
    exact (Option.some.inj h).symm
  | acquire i => simp [Run.step, Run.stuckMid, Run.stuckInit] at h
  | handOver i j =>
    cases j with
    | zero => simp [Run.step, Run.stuckMid, Run.stuckInit] at h
    | succ j => simp [Run.step, Run.stuckMid, Run.stuckInit] at h
  | makeRequest i r =>
    cases i with
    | zero => simp [Run.step, Run.stuckMid, Run.stuckInit] at h
    | succ i => simp [Run.step, Run.stuckMid, Run.stuckInit] at h
  | send i =>
    cases i with
    | zero => simp [Run.step, Run.stuckMid, Run.stuckInit] at h
    | succ i => simp [Run.step, Run.stuckMid, Run.stuckInit] at h
  | release i => simp [Run.step, Run.stuckMid, Run.stuckInit] at h
  | wgDone i =>
    cases i with
    | zero => simp [Run.step, Run.stuckMid, Run.stuckInit] at h
    | succ i => simp [Run.step, Run.stuckMid, Run.stuckInit] at h
  | launch | waitReturn | closeResults | receive | finish e =>
    simp [Run.step, Run.stuckMid, Run.stuckInit] at h

theorem Run.stuckInit_step (a : Action) (t : RunState) (h : Run.step Run.stuckInit a = some t) :
    t = Run.stuckMid := by
  cases a with
  | launch =>
    have : Run.step Run.stuckInit .launch = some Run.stuckMid := by decide
    rw [this] at h
    exact (Option.some.inj h).symm
  | send i => simp [Run.step, Run.stuckInit] at h
  | startCollect | acquire i | handOver i j | makeRequest i r | release i | wgDone i
  | waitReturn | closeResults | receive | finish e =>
    simp [Run.step, Run.stuckInit] at h

theorem Run.stuck_exec (sched : List Action) (s t : RunState)
    (hs : s = Run.stuckInit ∨ s = Run.stuckMid ∨ s = Run.stuckState)
    (h : Run.exec s sched = some t) :
    t = Run.stuckInit ∨ t = Run.stuckMid ∨ t = Run.stuckState := by
  induction sched generalizing s with
  | nil =>
    simp only [Run.exec, Option.some.injEq] at h
    subst h
    exact hs
  | cons a rest ih =>
    simp only [Run.exec] at h
    split at h
    · rename_i u hu
      refine ih u ?_ h
      rcases hs with hs | hs | hs
      · subst hs
        exact Or.inr (Or.inl (Run.stuckInit_step a u hu))
      · subst hs
        exact Or.inr (Or.inr (Run.stuckMid_step a u hu))
      · subst hs
        rw [Run.stuckState_step a] at hu
        exact absurd hu (by simp)
    · exact absurd h (by simp)

/-! ## Claims on the aggregation -/

theorem alternates_countP (rs : List Result) (a b : Int) (hab : a ≠ b)
    (h : alternates a b rs = true) :
    rs.countP (Result.hasCode a) = (rs.length + 1) / 2 ∧
    rs.countP (Result.hasCode b) = rs.length / 2 ∧
    ∀ c, c ≠ a → c ≠ b → rs.countP (Result.hasCode c) = 0 := by
  induction rs generalizing a b with
  | nil => simp
  | cons r rs ih =>
    simp only [alternates, Bool.and_eq_true, decide_eq_true_eq] at h
    obtain ⟨⟨hE, hk⟩, hrest⟩ := h
    obtain ⟨ih1, ih2, ih3⟩ := ih b a (Ne.symm hab) hrest
    have ha : r.hasCode a = true := by simp [Result.hasCode, hE, hk]
    have hb : r.hasCode b = false := by simp [Result.hasCode, hk, hab]
    refine ⟨?_, ?_, ?_⟩
    · rw [List.countP_cons, ih2]
      simp only [ha, if_true, List.length_cons]
      omega
    · rw [List.countP_cons, ih1]
      simp only [hb, List.length_cons]
      simp
    · intro c hca hcb
      have hc : r.hasCode c = false := by simp [Result.hasCode, hk, Ne.symm hca]
      rw [List.countP_cons, ih3 c hcb hca]
      simp [hc]

/-- Claim C2: the sum of the values of StatusCodeCounts plus ErrorCount equals
TotalRequests in the initial report, is preserved by every loop iteration
from any loop state, holds after every initial segment of the stream, and holds in
the report returned by collectResults. -/
theorem collectResults_counts_add_up (rs : List Result) (elapsed : Int) :
    collectInit.report.countsAddUp ∧
    (∀ (st : CollectState) (r : Result),
      st.report.countsAddUp → (collectStep st r).report.countsAddUp) ∧
    (∀ k : Nat, (collectLoop (rs.take k)).report.countsAddUp) ∧
    (collectResults rs elapsed).countsAddUp := by
  have hstep : ∀ (st : CollectState) (r : Result),
      st.report.countsAddUp → (collectStep st r).report.countsAddUp := by
    intro st r h
    unfold Report.countsAddUp at h ⊢
    rw [collectStep_StatusCodeCounts, collectStep_ErrorCount, collectStep_TotalRequests]
    cases hE : r.isError
    · simp only [Bool.false_eq_true, if_false, StatusMap.sumValues_incr]
      omega
    · simp only [if_true]
      omega
  have hloop : ∀ l : List Result, (collectLoop l).report.countsAddUp := by
    intro l
    unfold collectLoop
    suffices H : ∀ st : CollectState, st.report.countsAddUp →
        (l.foldl collectStep st).report.countsAddUp from H collectInit (by decide)
    induction l with
    | nil => intro st h; simpa using h
    | cons r l ih => intro st h; exact ih _ (hstep st r h)
  refine ⟨by decide, hstep, fun k => hloop _, ?_⟩
  have h := hloop rs
  unfold Report.countsAddUp at h ⊢
  rw [collectResults, collectFinish_StatusCodeCounts, collectFinish_ErrorCount,
    collectFinish_TotalRequests]
  exact h

theorem collectResults_counts_add_up_witness :
    (collectStep collectInit ⟨200, 5, none⟩).report.countsAddUp :=
  (collectResults_counts_add_up [] 0).2.1 collectInit ⟨200, 5, none⟩
    (collectResults_counts_add_up [] 0).1

/-- Claim C4: two streams that are permutations of each other give reports
with the same TotalRequests, SuccessfulReqs, ErrorCount, StatusCodeCounts
(same entry under every key), AvgResponseTime, MinResponseTime and
MaxResponseTime, whatever the two elapsed times. -/
theorem collectResults_perm (rs₁ rs₂ : List Result) (e₁ e₂ : Int) (h : rs₁.Perm rs₂) :
    (collectResults rs₁ e₁).TotalRequests = (collectResults rs₂ e₂).TotalRequests ∧
    (collectResults rs₁ e₁).SuccessfulReqs = (collectResults rs₂ e₂).SuccessfulReqs ∧
    (collectResults rs₁ e₁).ErrorCount = (collectResults rs₂ e₂).ErrorCount ∧
    (∀ c : Int, StatusMap.find (collectResults rs₁ e₁).StatusCodeCounts c =
      StatusMap.find (collectResults rs₂ e₂).StatusCodeCounts c) ∧
    (collectResults rs₁ e₁).AvgResponseTime = (collectResults rs₂ e₂).AvgResponseTime ∧
    (collectResults rs₁ e₁).MinResponseTime = (collectResults rs₂ e₂).MinResponseTime ∧
    (collectResults rs₁ e₁).MaxResponseTime = (collectResults rs₂ e₂).MaxResponseTime := by
  have hlen : rs₁.length = rs₂.length := h.length_eq
  have hd : (rs₁.map Result.Duration).Perm (rs₂.map Result.Duration) := h.map _
  have hsum : durationSum rs₁ = durationSum rs₂ := by
    unfold durationSum
    exact hd.sum_eq
  have hmin : ∀ m : Int, (rs₁.map Result.Duration).foldl min m =
      (rs₂.map Result.Duration).foldl min m := by
    intro m
    haveI : RightCommutative (min : Int → Int → Int) := ⟨min_right_comm⟩
    exact hd.foldl_eq m
  have hmax : ∀ m : Int, (rs₁.map Result.Duration).foldl max m =
      (rs₂.map Result.Duration).foldl max m := by
    intro m
    haveI : RightCommutative (max : Int → Int → Int) :=
      ⟨fun a b c => by simp only [max_assoc, max_comm b c]⟩
    exact hd.foldl_eq m
  have hnil : rs₁ = [] ↔ rs₂ = [] :=
    ⟨fun h1 => List.length_eq_zero.1 (by rw [← hlen, h1]; rfl),
     fun h2 => List.length_eq_zero.1 (by rw [hlen, h2]; rfl)⟩
  refine ⟨?_, ?_, ?_, ?_, ?_, ?_, ?_⟩
  · rw [collectResults_TotalRequests, collectResults_TotalRequests, hlen]
  · rw [collectResults_SuccessfulReqs, collectResults_SuccessfulReqs, h.countP_eq]
  · rw [collectResults_ErrorCount, collectResults_ErrorCount, h.countP_eq]
  · intro c
    rw [collectResults_find, collectResults_find, h.countP_eq]
  · rw [collectResults_AvgResponseTime, collectResults_AvgResponseTime, hsum, hlen]
    simp only [hnil]
  · rw [collectResults_MinResponseTime, collectResults_MinResponseTime, hmin]
  · rw [collectResults_MaxResponseTime, collectResults_MaxResponseTime, hmax]

theorem collectResults_perm_witness :
    (collectResults [⟨200, 5, none⟩, ⟨404, 7, none⟩] 1).MinResponseTime =
      (collectResults [⟨404, 7, none⟩, ⟨200, 5, none⟩] 2).MinResponseTime :=
  (collectResults_perm [⟨200, 5, none⟩, ⟨404, 7, none⟩] [⟨404, 7, none⟩, ⟨200, 5, none⟩] 1 2
    (List.Perm.swap _ _ [])).2.2.2.2.2.1

/-- Claim C5: for every stream and every status code c, the map read
StatusCodeCounts[c] is the number of results without error whose status code
is c, and c is a key exactly when that number is positive; when the stream
is N error-free responses alternating between two distinct codes a and b, N
even, both reads give N/2, both codes are keys as soon as N is positive, and
no other key is present. -/
theorem collectResults_status_counts (rs : List Result) (elapsed : Int) (c : Int) :
    StatusMap.get (collectResults rs elapsed).StatusCodeCounts c =
      rs.countP (Result.hasCode c) ∧
    (StatusMap.find (collectResults rs elapsed).StatusCodeCounts c ≠ none ↔
      0 < rs.countP (Result.hasCode c)) ∧
    (∀ a b : Int, a ≠ b → alternates a b rs = true → rs.length % 2 = 0 →
      StatusMap.get (collectResults rs elapsed).StatusCodeCounts a = (rs.length / 2 : Nat) ∧
      StatusMap.get (collectResults rs elapsed).StatusCodeCounts b = (rs.length / 2 : Nat) ∧
      (0 < rs.length →
        StatusMap.find (collectResults rs elapsed).StatusCodeCounts a
          = some ((rs.length / 2 : Nat) : Int) ∧
        StatusMap.find (collectResults rs elapsed).StatusCodeCounts b
          = some ((rs.length / 2 : Nat) : Int)) ∧
      ∀ k : Int, k ≠ a → k ≠ b →
        StatusMap.find (collectResults rs elapsed).StatusCodeCounts k = none) := by
  refine ⟨collectResults_get rs elapsed c, ?_, ?_⟩
  · rw [collectResults_find]
    by_cases h0 : rs.countP (Result.hasCode c) = 0
    · simp [h0]
    · simp [h0, Nat.pos_of_ne_zero h0]
  · intro a b hab halt hev
    obtain ⟨h1, h2, h3⟩ := alternates_countP rs a b hab halt
    have h1' : rs.countP (Result.hasCode a) = rs.length / 2 := by omega
    refine ⟨?_, ?_, ?_, ?_⟩
    · rw [collectResults_get, h1']
    · rw [collectResults_get, h2]
    · intro hpos
      have hne : rs.length / 2 ≠ 0 := by omega
      rw [collectResults_find, collectResults_find, h1', h2]
      simp [hne]
    · intro k hka hkb
      rw [collectResults_find, h3 k hka hkb]
      simp

theorem collectResults_status_counts_witness :
    StatusMap.find (collectResults
      [⟨200, 5, none⟩, ⟨404, 7, none⟩, ⟨200, 6, none⟩, ⟨404, 8, none⟩] 0).StatusCodeCounts 404
      = some 2 :=
  ((collectResults_status_counts
    [⟨200, 5, none⟩, ⟨404, 7, none⟩, ⟨200, 6, none⟩, ⟨404, 8, none⟩] 0 0).2.2
      200 404 (by decide) (by decide) (by decide)).2.2.1 (by decide) |>.2

/-- Claim C6: when every result of the stream is free of error and has status
code 200, the report has SuccessfulReqs equal to TotalRequests,
StatusCodeCounts[200] equal to TotalRequests and ErrorCount zero. -/
theorem collectResults_all_ok (rs : List Result) (elapsed : Int)
    (h : ∀ r ∈ rs, r.Error = none ∧ r.StatusCode = 200) :
    (collectResults rs elapsed).SuccessfulReqs = (collectResults rs elapsed).TotalRequests ∧
    StatusMap.get (collectResults rs elapsed).StatusCodeCounts 200 =
      (collectResults rs elapsed).TotalRequests ∧
    (collectResults rs elapsed).ErrorCount = 0 := by
  have h200 : rs.countP (Result.hasCode 200) = rs.length := by
    rw [List.countP_eq_length]
    intro r hr
    obtain ⟨hE, hk⟩ := h r hr
    simp [Result.hasCode, hE, hk]
  have herr : rs.countP Result.isError = 0 := by
    rw [List.countP_eq_zero]
    intro r hr
    obtain ⟨hE, _⟩ := h r hr
    simp [Result.isError, hE]
  rw [collectResults_SuccessfulReqs, collectResults_TotalRequests, collectResults_get,
    collectResults_ErrorCount, h200, herr]
  simp

theorem collectResults_all_ok_witness :
    (collectResults [⟨200, 5, none⟩, ⟨200, 7, none⟩] 3).SuccessfulReqs =
      (collectResults [⟨200, 5, none⟩, ⟨200, 7, none⟩] 3).TotalRequests :=
  (collectResults_all_ok [⟨200, 5, none⟩, ⟨200, 7, none⟩] 3 (by decide)).1

theorem durationSum_nonneg (rs : List Result) (h : ∀ r ∈ rs, 0 ≤ r.Duration) :
    0 ≤ durationSum rs := by
  induction rs with
  | nil => simp [durationSum]
  | cons r rs ih =>
    have h1 := h r (List.mem_cons_self r rs)
    have h2 := ih (fun x hx => h x (List.mem_cons_of_mem r hx))
    simp only [durationSum, List.map_cons, List.sum_cons] at h2 ⊢
    omega

theorem mul_length_le_durationSum (rs : List Result) (m : Int) (h : ∀ r ∈ rs, m ≤ r.Duration) :
    m * rs.length ≤ durationSum rs := by
  induction rs with
  | nil => simp [durationSum]
  | cons r rs ih =>
    have h1 := h r (List.mem_cons_self r rs)
    have h2 := ih (fun x hx => h x (List.mem_cons_of_mem r hx))
    simp only [durationSum, List.map_cons, List.sum_cons, List.length_cons] at h2 ⊢
    push_cast
    rw [mul_add, mul_one]
    omega

theorem durationSum_le_mul_length (rs : List Result) (m : Int) (h : ∀ r ∈ rs, r.Duration ≤ m) :
    durationSum rs ≤ m * rs.length := by
  induction rs with
  | nil => simp [durationSum]
  | cons r rs ih =>
    have h1 := h r (List.mem_cons_self r rs)
    have h2 := ih (fun x hx => h x (List.mem_cons_of_mem r hx))
    simp only [durationSum, List.map_cons, List.sum_cons, List.length_cons] at h2 ⊢
    push_cast
    rw [mul_add, mul_one]
    omega

/-- Claim C7: for a non-empty stream of results with non-negative durations
whose sum stays below 2^63, the report has MinResponseTime at most
AvgResponseTime at most MaxResponseTime, and AvgResponseTime is the integer
quotient of the sum of the durations by the number of results. -/
theorem collectResults_avg_between (rs : List Result) (elapsed : Int) (hne : rs ≠ [])
    (hpos : ∀ r ∈ rs, 0 ≤ r.Duration) (hsum : durationSum rs < 2 ^ 63) :
    (collectResults rs elapsed).MinResponseTime ≤ (collectResults rs elapsed).AvgResponseTime ∧
    (collectResults rs elapsed).AvgResponseTime ≤ (collectResults rs elapsed).MaxResponseTime ∧
    (collectResults rs elapsed).AvgResponseTime =
      Int.tdiv (durationSum rs) (collectResults rs elapsed).TotalRequests := by
  have h0 : 0 ≤ durationSum rs := durationSum_nonneg rs hpos
  have hw : wrap64 (durationSum rs) = durationSum rs :=
    wrap64_of_range _ (by omega) hsum
  have hlen : (0 : Int) < rs.length := by
    cases rs with
    | nil => exact absurd rfl hne
    | cons r rs =>
      simp only [List.length_cons]
      push_cast
      omega
  have havg : (collectResults rs elapsed).AvgResponseTime = durationSum rs / (rs.length : Int) := by
    rw [collectResults_AvgResponseTime, if_neg hne, hw, Int.tdiv_eq_ediv h0 (le_of_lt hlen)]
  have hmin : ∀ r ∈ rs, (collectResults rs elapsed).MinResponseTime ≤ r.Duration := by
    intro r hr
    rw [collectResults_MinResponseTime]
    split_ifs
    · exact hpos r hr
    · exact foldl_min_le_mem _ _ _ (List.mem_map_of_mem _ hr)
  have hmax : ∀ r ∈ rs, r.Duration ≤ (collectResults rs elapsed).MaxResponseTime := by
    intro r hr
    rw [collectResults_MaxResponseTime]
    exact foldl_max_ge_mem _ _ _ (List.mem_map_of_mem _ hr)
  refine ⟨?_, ?_, ?_⟩
  · rw [havg, Int.le_ediv_iff_mul_le hlen]
    exact mul_length_le_durationSum rs _ hmin
  · rw [havg]
    exact Int.ediv_le_of_le_mul hlen (durationSum_le_mul_length rs _ hmax)
  · rw [havg, collectResults_TotalRequests, Int.tdiv_eq_ediv h0 (le_of_lt hlen)]

theorem collectResults_avg_between_witness :
    (collectResults [⟨200, 5, none⟩, ⟨0, 8, some "timeout"⟩] 1).MinResponseTime ≤
      (collectResults [⟨200, 5, none⟩, ⟨0, 8, some "timeout"⟩] 1).AvgResponseTime :=
  (collectResults_avg_between [⟨200, 5, none⟩, ⟨0, 8, some "timeout"⟩] 1 (by decide)
    (by decide) (by decide)).1

/-- Claim C8 at the stream made of one result that took two hours: the
duration is non-negative and a result was folded, yet the reported
MinResponseTime is zero, which is not the smallest duration of the stream;
the minimum stays at its initial value through the loop and is then taken
for the mark of an empty stream. -/
theorem collectResults_min_sentinel_slip :
    (∀ r ∈ [(⟨200, 7200000000000, none⟩ : Result)], 0 ≤ r.Duration) ∧
    (collectLoop [⟨200, 7200000000000, none⟩]).report.TotalRequests = 1 ∧
    (collectLoop [⟨200, 7200000000000, none⟩]).report.MinResponseTime = timeHour ∧
    (collectResults [⟨200, 7200000000000, none⟩] 0).MinResponseTime = 0 ∧
    ¬ IsSmallestDuration [⟨200, 7200000000000, none⟩]
        (collectResults [⟨200, 7200000000000, none⟩] 0).MinResponseTime := by
  refine ⟨by decide, by decide, by decide, by decide, ?_⟩
  have h : (collectResults [⟨200, 7200000000000, none⟩] 0).MinResponseTime = 0 := by decide
  rw [h]
  rintro ⟨⟨r, hr, hd⟩, _⟩
  simp only [List.mem_singleton] at hr
  subst hr
  exact absurd hd (by decide)

/-- What `collectResults` reports as minimum: zero for the empty stream, the
smallest duration as soon as one duration is below one hour, and zero when
every duration is one hour or more. -/
theorem collectResults_min_cases (rs : List Result) (elapsed : Int) :
    (rs = [] → (collectResults rs elapsed).MinResponseTime = 0) ∧
    ((∃ r ∈ rs, r.Duration < timeHour) →
      IsSmallestDuration rs (collectResults rs elapsed).MinResponseTime) ∧
    ((∀ r ∈ rs, timeHour ≤ r.Duration) → (collectResults rs elapsed).MinResponseTime = 0) := by
  refine ⟨?_, ?_, ?_⟩
  · intro hnil
    subst hnil
    rw [collectResults_MinResponseTime]
    simp
  · rintro ⟨r0, hr0, hlt⟩
    have hraw : (rs.map Result.Duration).foldl min timeHour < timeHour :=
      lt_of_le_of_lt (foldl_min_le_mem _ _ _ (List.mem_map_of_mem _ hr0)) hlt
    have hmem : (rs.map Result.Duration).foldl min timeHour ∈ rs.map Result.Duration := by
      rcases foldl_min_eq (rs.map Result.Duration) timeHour with h1 | h1
      · omega
      · exact h1
    rw [collectResults_MinResponseTime, if_neg (ne_of_lt hraw)]
    refine ⟨?_, ?_⟩
    · obtain ⟨r, hr, hd⟩ := List.mem_map.1 hmem
      exact ⟨r, hr, hd⟩
    · intro r hr
      exact foldl_min_le_mem _ _ _ (List.mem_map_of_mem _ hr)
  · intro hall
    have hraw : (rs.map Result.Duration).foldl min timeHour = timeHour := by
      rcases foldl_min_eq (rs.map Result.Duration) timeHour with h1 | h1
      · exact h1
      · obtain ⟨r, hr, hd⟩ := List.mem_map.1 h1
        have h2 := hall r hr
        have h3 := foldl_min_le_init (rs.map Result.Duration) timeHour
        omega
    rw [collectResults_MinResponseTime, if_pos hraw]

/-! ## Claims on `Run` -/

/-- Claim C1, as stated, fails at two configurations with at least one
request. With one request and concurrency zero the semaphore is unbuffered:
the task is launched and blocks on its send, no result reaches the stream,
no step is possible any more, and no execution ever returns a report. With
2^43 requests the creation of the channel of results panics, so that there
is no execution at all. -/
theorem Run_total_requests_counterexample :
    (1 ≤ Run.stuckConfig.Requests ∧
      Run.init Run.demoCap Run.stuckConfig = some Run.stuckInit ∧
      Run.exec Run.stuckInit [.launch, .startCollect] = some Run.stuckState ∧
      Run.stuckState.tasks.length = 1 ∧ Run.stuckState.results = [] ∧
      Run.stuckState.collect.report.TotalRequests = 0 ∧
      (∀ a, Run.step Run.stuckState a = none) ∧
      ∀ sched s, Run.exec Run.stuckInit sched = some s → s.report = none) ∧
    (1 ≤ Run.hugeConfig.Requests ∧ Run.init Run.demoCap Run.hugeConfig = none) := by
  refine ⟨⟨by decide, by decide, by decide, by decide, by decide, by decide,
    Run.stuckState_step, ?_⟩, by decide, by decide⟩
  intro sched s h
  rcases Run.stuck_exec sched Run.stuckInit s (Or.inl rfl) h with hs | hs | hs <;>
    subst hs <;> decide

/-- Claim C1, amended: for every configuration with at least one request, at
most as many requests as the channel of results can hold, and concurrency at
least one, Run starts, and in every state reached by an execution, whatever
the tasks get from makeRequest: a returned report has TotalRequests equal to
the configured number of requests; the results buffered or already counted
are exactly one per task that passed its send; no goroutine panicked; the
execution is finite; an execution that has not returned can take a step, and
it can be continued to a state in which Run has returned. Moreover
collectResults counts exactly one per result of its stream. -/
theorem Run_total_requests (maxCap : Nat) (config : Config) (hn : 1 ≤ config.Requests)
    (hcap : config.Requests ≤ maxCap) (hconc : 1 ≤ config.Concurrency) :
    (∀ (rs : List Result) (e : Int), (collectResults rs e).TotalRequests = rs.length) ∧
    ∃ s₀, Run.init maxCap config = some s₀ ∧
      ∀ (sched : List Action) (s : RunState), Run.exec s₀ sched = some s →
        (∀ rep, s.report = some rep → rep.TotalRequests = config.Requests) ∧
        ((s.results.length : Int) + s.collect.report.TotalRequests =
          (s.tasks.countP TaskPc.delivered : Nat)) ∧
        s.panicked = false ∧
        sched.length ≤ 11 * config.Requests.toNat + 8 ∧
        (s.report = none → ∃ a t, Run.step s a = some t) ∧
        ∃ rest t rep, Run.exec s rest = some t ∧ t.report = some rep ∧
          rep.TotalRequests = config.Requests := by
  refine ⟨collectResults_TotalRequests, ?_⟩
  have hinit : ∃ s₀, Run.init maxCap config = some s₀ := by
    unfold Run.init
    rw [if_neg (by omega)]
    exact ⟨_, rfl⟩
  obtain ⟨s₀, h₀⟩ := hinit
  refine ⟨s₀, h₀, ?_⟩
  intro sched s h
  have hinv := Run.exec_inv sched s₀ s (Run.init_inv maxCap config s₀ h₀) h
  obtain ⟨hm0, hr0, hc0⟩ := Run.init_measure maxCap config s₀ h₀
  obtain ⟨hr, hc⟩ := Run.exec_params sched s₀ s h
  have hreq : ∀ (t : RunState) (rep : Report), Run.Inv t → t.requests = s₀.requests →
      t.report = some rep → rep.TotalRequests = config.Requests := by
    intro t rep ht hreq hrep
    rw [← hr0, ← hreq]
    exact (ht.returned rep ((Run.report_eq t rep).1 hrep)).1
  have hc1 : 1 ≤ s.concurrency := by
    rw [hc]
    omega
  refine ⟨fun rep hrep => hreq s rep hinv hr hrep, hinv.delivered_eq, hinv.no_panic, ?_,
    Run.progress s hinv hc1, ?_⟩
  · have := Run.exec_measure sched s₀ s h
    omega
  · obtain ⟨rest, t, rep, ht, hrep⟩ := Run.exists_return s.measure s (le_refl _) hinv hc1
    refine ⟨rest, t, rep, ht, hrep, ?_⟩
    exact hreq t rep (Run.exec_inv rest s t hinv ht)
      ((Run.exec_params rest s t ht).1.trans hr) hrep

/-- Claim C3: in every state reached by an execution of Run, the number of
tasks inside makeRequest is at most the minimum of Concurrency and Requests;
the occupied semaphore slots are exactly the tasks between their acquire and
their release; a task holding a slot is never blocked on its way to the
release, whatever makeRequest returns; and once Run has returned, every task
has finished and no slot is occupied. -/
theorem Run_in_flight_bound (maxCap : Nat) (config : Config) (s₀ : RunState)
    (h₀ : Run.init maxCap config = some s₀) (sched : List Action) (s : RunState)
    (h : Run.exec s₀ sched = some s) :
    (s.inFlight : Int) ≤ min config.Concurrency config.Requests ∧
    s.semaphore = s.holders ∧
    (s.holders : Int) ≤ min config.Concurrency config.Requests ∧
    (∀ (i : Nat) (r : Result), s.tasks[i]? = some TaskPc.running →
      ∃ t, Run.step s (.makeRequest i r) = some t ∧ t.tasks[i]? = some (TaskPc.hasResult r)) ∧
    (∀ (i : Nat) (r : Result), s.tasks[i]? = some (TaskPc.hasResult r) →
      ∃ t, Run.step s (.send i) = some t ∧ t.panicked = false ∧
        t.tasks[i]? = some TaskPc.sent) ∧
    (∀ i : Nat, s.tasks[i]? = some TaskPc.sent →
      ∃ t, Run.step s (.release i) = some t ∧ t.semaphore + 1 = s.semaphore ∧
        t.tasks[i]? = some TaskPc.released) ∧
    (∀ rep, s.report = some rep →
      s.holders = 0 ∧ s.semaphore = 0 ∧ ∀ pc ∈ s.tasks, pc = TaskPc.done) := by
  have hinv := Run.exec_inv sched s₀ s (Run.init_inv maxCap config s₀ h₀) h
  obtain ⟨_, hr0, hc0⟩ := Run.init_measure maxCap config s₀ h₀
  obtain ⟨hr, hc⟩ := Run.exec_params sched s₀ s h
  obtain ⟨i1, i2, i3, i4, i5, i6, i7, i8, i9, i10, i11, i12⟩ := hinv
  have hlen : ∀ (i : Nat) (pc : TaskPc), s.tasks[i]? = some pc → i < s.tasks.length := by
    intro i pc hi
    by_contra hge
    rw [List.getElem?_eq_none (by omega)] at hi
    exact absurd hi (by simp)
  have hhold : (s.holders : Int) ≤ min config.Concurrency config.Requests := by
    have h1 : s.holders ≤ s.tasks.length := List.countP_le_length _
    have h2 : s.holders = s.semaphore := i3.symm
    rw [le_min_iff]
    constructor <;> omega
  refine ⟨?_, i3, hhold, ?_, ?_, ?_, ?_⟩
  · have : s.inFlight ≤ s.holders := countP_inRequest_le_holding s.tasks
    omega
  · intro i r ht
    refine ⟨{ s with tasks := s.tasks.set i (.hasResult r) },
      by simp only [Run.step, i11, ht]; rfl, ?_⟩
    simp [List.getElem?_set, hlen i _ ht]
  · intro i r ht
    have c4 := countP_pos_of_getElem? TaskPc.notDone s.tasks i _ ht rfl
    have hncl : s.closed = false := by
      cases hcl : s.closed
      · rfl
      · have := i8 (Or.inr (i9.1 hcl))
        omega
    have hlt := countP_delivered_lt s.tasks i _ ht rfl
    have hlen' : s.results.length < s.requests := by omega
    refine ⟨{ s with tasks := s.tasks.set i .sent, results := s.results ++ [r] },
      by simp only [Run.step, i11, ht, hncl, hlen']; rfl, i11, ?_⟩
    simp [List.getElem?_set, hlen i _ ht]
  · intro i ht
    have hh := countP_pos_of_getElem? TaskPc.holding s.tasks i _ ht rfl
    have hpos : 0 < s.semaphore := by omega
    refine ⟨{ s with tasks := s.tasks.set i .released, semaphore := s.semaphore - 1 },
      by simp only [Run.step, i11, ht, hpos]; rfl, ?_, ?_⟩
    · dsimp only
      omega
    · simp [List.getElem?_set, hlen i _ ht]
  · intro rep hrep
    have hd := (i10 rep ((Run.report_eq s rep).1 hrep)).2
    have hw := i8 (Or.inr hd)
    have hnd : s.tasks.countP TaskPc.notDone = 0 := by omega
    have hle := countP_holding_le_notDone s.tasks
    refine ⟨by unfold RunState.holders; omega, by omega, ?_⟩
    intro pc hpc
    rw [List.countP_eq_zero] at hnd
    have := hnd pc hpc
    cases pc <;> simp_all [TaskPc.notDone]

theorem Run_total_requests_witness : Run.demoReport.TotalRequests = 2 := by
  obtain ⟨s₀, h₀, hall⟩ :=
    (Run_total_requests Run.demoCap Run.demoConfig (by decide) (by decide) (by decide)).2
  have hs : s₀ = Run.demoInit :=
    Option.some.inj (h₀.symm.trans (by decide : Run.init Run.demoCap Run.demoConfig = _))
  subst hs
  exact (hall Run.demoSchedule Run.demoFinal (by decide)).1 Run.demoReport (by decide)

theorem Run_in_flight_bound_witness : (Run.demoMiddle.inFlight : Int) ≤ min 1 2 :=
  (Run_in_flight_bound Run.demoCap Run.demoConfig Run.demoInit (by decide) Run.demoStart
    Run.demoMiddle (by decide)).1

/-! ## Claims on parameter validation -/

/-- Claim C9: validateParams returns nil only when requests and concurrency
are both positive; non-positive counts always give an error, and then
runLoadTest returns it without calling Run; whenever validateParams returns
nil the concurrency left for the run is the minimum of the original
concurrency and requests, lies between 1 and requests, requests is unchanged,
and these are the values of the configuration passed to Run. -/
theorem validateParams_accepts (parseRequestURI : String → Option String) (g : Flags) :
    ((validateParams parseRequestURI g).err = none →
      0 < g.requests ∧ 0 < g.concurrency ∧
      (validateParams parseRequestURI g).flags.concurrency = min g.concurrency g.requests ∧
      1 ≤ (validateParams parseRequestURI g).flags.concurrency ∧
      (validateParams parseRequestURI g).flags.concurrency ≤
        (validateParams parseRequestURI g).flags.requests ∧
      (validateParams parseRequestURI g).flags.requests = g.requests ∧
      runLoadTest parseRequestURI g =
        .ran { URL := g.targetURL, Requests := g.requests,
               Concurrency := min g.concurrency g.requests }) ∧
    (g.requests ≤ 0 ∨ g.concurrency ≤ 0 →
      ∃ e, (validateParams parseRequestURI g).err = some e ∧
        runLoadTest parseRequestURI g = .rejected e) ∧
    (∀ config, runLoadTest parseRequestURI g = .ran config →
      (validateParams parseRequestURI g).err = none ∧
      0 < config.Requests ∧ 1 ≤ config.Concurrency ∧ config.Concurrency ≤ config.Requests) := by
  by_cases hu : g.targetURL = ""
  · have hv : validateParams parseRequestURI g =
        { err := some "URL é obrigatória", flags := g, printed := [] } := by
      simp [validateParams, hu]
    simp [runLoadTest, hv]
  · cases hp : parseRequestURI g.targetURL with
    | some e =>
      have hv : validateParams parseRequestURI g =
          { err := some ("URL inválida: " ++ e), flags := g, printed := [] } := by
        simp [validateParams, hu, hp]
      simp [runLoadTest, hv]
    | none =>
      by_cases hr : g.requests ≤ 0
      · have hv : validateParams parseRequestURI g =
            { err := some "número de requests deve ser maior que 0", flags := g,
              printed := [] } := by
          simp [validateParams, hu, hp, hr]
        simp [runLoadTest, hv, hr]
      · by_cases hc : g.concurrency ≤ 0
        · have hv : validateParams parseRequestURI g =
              { err := some "concorrência deve ser maior que 0", flags := g,
                printed := [] } := by
            simp [validateParams, hu, hp, hr, hc]
          simp [runLoadTest, hv, hc]
        · by_cases hgt : g.concurrency > g.requests
          · have hv : validateParams parseRequestURI g =
                { err := none, flags := { g with concurrency := g.requests },
                  printed := ["Aviso: Concorrência ajustada para " ++ toString g.requests ++
                    " (número total de requests)\n"] } := by
              simp [validateParams, hu, hp, hr, hc, hgt]
            have hmin : min g.concurrency g.requests = g.requests :=
              min_eq_right (le_of_lt hgt)
            rw [hmin]
            simp only [runLoadTest, hv]
            refine ⟨fun _ => ⟨by omega, by omega, by trivial, by omega, le_refl _, by trivial,
              by trivial⟩, fun h => ?_, fun config h => ?_⟩
            · omega
            · simp only [LoadTest.ran.injEq] at h
              subst h
              exact ⟨by trivial, by dsimp only; omega, by dsimp only; omega, le_refl _⟩
          · have hv : validateParams parseRequestURI g =
                { err := none, flags := g, printed := [] } := by
              simp [validateParams, hu, hp, hr, hc, hgt]
            have hmin : min g.concurrency g.requests = g.concurrency :=
              min_eq_left (by omega)
            rw [hmin]
            simp only [runLoadTest, hv]
            refine ⟨fun _ => ⟨by omega, by omega, by trivial, by omega, by omega, by trivial,
              by trivial⟩, fun h => ?_, fun config h => ?_⟩
            · omega
            · simp only [LoadTest.ran.injEq] at h
              subst h
              exact ⟨by trivial, by dsimp only; omega, by dsimp only; omega,
                by dsimp only; omega⟩

theorem validateParams_accepts_witness :
    (validateParams (fun _ => none) ⟨"http://localhost", 3, 10⟩).flags.concurrency = min 10 3 :=
  ((validateParams_accepts (fun _ => none) ⟨"http://localhost", 3, 10⟩).1 (by decide)).2.2.1

end LoadTester
